import Mathlib

/-!
Verification development for the fetch-filter-thread-reconstruction engine of
the repository (src/twitter_fetcher.py).  The Python source is shallowly
embedded below:

* machine timestamps are `Int` seconds since the Unix epoch (UTC);
* the upstream client (twikit) delivers `created_at` either as a structured
  datetime or as a string; both are modelled by `TimeVal`.  The two textual
  formats the source parses (the Twitter wire format and a lenient
  `YYYY-MM-DD HH:MM:SS` form applied to the first 19 characters) are
  implemented as executable parsers, including the strftime-style rendering
  of kept timestamps into the fixed UTC+8 display string;
* the per-account result records (Python dicts) are the structure `TweetData`;
  the `url` field, built in the source as
  `https://twitter.com/{user}/status/{id}` and split back apart on `/`,
  is modelled structurally as the pair `Url` of account and status id;
* Python dict and set state is modelled with association lists and lists,
  preserving insertion order and last-write-wins update semantics;
* remote calls (`get_tweet_by_id`, `get_tweets`) are modelled as oracles
  passed in as functions, with explicit success and failure outcomes, and
  `asyncio.sleep` pacing calls are recorded in explicit trace fields.
-/

/-! ## Calendar arithmetic (embedding of the datetime conversions used) -/

def pad2 (n : Int) : String :=
  if n < 10 then "0" ++ toString n else toString n

def pad4 (n : Int) : String :=
  if n < 10 then "000" ++ toString n
  else if n < 100 then "00" ++ toString n
  else if n < 1000 then "0" ++ toString n
  else toString n

/-- Days since 1970-01-01 of a proleptic Gregorian civil date
(standard civil-from-days inversion pair). -/
def daysFromCivil (y m d : Int) : Int :=
  let y' := if m ≤ 2 then y - 1 else y
  let era := Int.ediv y' 400
  let yoe := y' - era * 400
  let doy := Int.ediv (153 * (m + (if 2 < m then -3 else 9)) + 2) 5 + d - 1
  let doe := yoe * 365 + Int.ediv yoe 4 - Int.ediv yoe 100 + doy
  era * 146097 + doe - 719468

def civilFromDays (z0 : Int) : Int × Int × Int :=
  let z := z0 + 719468
  let era := Int.ediv z 146097
  let doe := z - era * 146097
  let yoe := Int.ediv (doe - Int.ediv doe 1460 + Int.ediv doe 36524 - Int.ediv doe 146096) 365
  let y := yoe + era * 400
  let doy := doe - (365 * yoe + Int.ediv yoe 4 - Int.ediv yoe 100)
  let mp := Int.ediv (5 * doy + 2) 153
  let d := doy - Int.ediv (153 * mp + 2) 5 + 1
  let m := mp + (if mp < 10 then 3 else -9)
  (if m ≤ 2 then y + 1 else y, m, d)

/-- Embedding of `astimezone(timezone(timedelta(hours=8))).strftime("%Y-%m-%d %H:%M")`:
the display string of an instant, rendered in the fixed UTC+8 zone. -/
def formatBeijing (t : Int) : String :=
  let tb := t + 8 * 3600
  let days := Int.ediv tb 86400
  let secs := Int.emod tb 86400
  let c := civilFromDays days
  let hh := Int.ediv secs 3600
  let mi := Int.ediv (Int.emod secs 3600) 60
  pad4 c.1 ++ "-" ++ pad2 c.2.1 ++ "-" ++ pad2 c.2.2 ++ " " ++ pad2 hh ++ ":" ++ pad2 mi

/-! ## Timestamp parsing (embedding of the two strptime calls) -/

/-- Field splitting over the character list of a string (same semantics as
splitting a string on a single separator character; written structurally so
the whole pipeline evaluates inside the kernel). -/
def splitOnChar (sep : Char) : List Char → List (List Char)
  | [] => [[]]
  | c :: rest =>
    match splitOnChar sep rest with
    | [] => if c = sep then [[], [c]] else [[c]]
    | h :: t => if c = sep then [] :: h :: t else (c :: h) :: t

/-- Digit run to number (empty or non-digit input fails, as strptime does). -/
def digitsToNat? (l : List Char) : Option Nat :=
  if l ≠ [] ∧ l.all Char.isDigit then
    some (l.foldl (fun n c => n * 10 + (c.toNat - 48)) 0)
  else none

/-- A numeric field of a timestamp: digit count between `minLen` and `maxLen`,
value between `lo` and `hi` (the bounds strptime enforces per directive). -/
def parseNum (l : List Char) (minLen maxLen lo hi : Nat) : Option Nat :=
  if minLen ≤ l.length ∧ l.length ≤ maxLen then
    match digitsToNat? l with
    | some n => if lo ≤ n ∧ n ≤ hi then some n else none
    | none => none
  else none

def monthNum (s : String) : Option Nat :=
  match s with
  | "Jan" => some 1 | "Feb" => some 2 | "Mar" => some 3 | "Apr" => some 4
  | "May" => some 5 | "Jun" => some 6 | "Jul" => some 7 | "Aug" => some 8
  | "Sep" => some 9 | "Oct" => some 10 | "Nov" => some 11 | "Dec" => some 12
  | _ => none

def parseHMS (l : List Char) : Option (Nat × Nat × Nat) :=
  match splitOnChar ':' l with
  | [hs, ms, ss] =>
    match parseNum hs 1 2 0 23, parseNum ms 1 2 0 59, parseNum ss 1 2 0 61 with
    | some h, some mi, some se => some (h, mi, se)
    | _, _, _ => none
  | _ => none

def parseOffset (l : List Char) : Option Int :=
  if l.length = 5 then
    match l with
    | sign :: rest =>
      let hh := rest.take 2
      let mm := rest.drop 2
      match parseNum hh 2 2 0 23, parseNum mm 2 2 0 59 with
      | some h, some m =>
        if sign = '+' then some ((h : Int) * 60 + (m : Int))
        else if sign = '-' then some (-((h : Int) * 60 + (m : Int))) else none
      | _, _ => none
    | [] => none
  else none

/-- Embedding of `strptime(raw, "%a %b %d %H:%M:%S %z %Y")`
(the Twitter wire format, e.g. `Wed Oct 10 20:19:24 +0000 2018`). -/
def parseTwitterTime (s : String) : Option Int :=
  match splitOnChar ' ' s.data with
  | [dow, mon, dd, hms, off, yyyy] =>
    if ["Mon", "Tue", "Wed", "Thu", "Fri", "Sat", "Sun"].contains (String.mk dow) then
      match monthNum (String.mk mon), parseNum dd 1 2 1 31, parseHMS hms,
            parseOffset off, parseNum yyyy 4 4 0 9999 with
      | some m, some d, some hmsv, some offMin, some y =>
        some (daysFromCivil (y : Int) (m : Int) (d : Int) * 86400
              + (hmsv.1 : Int) * 3600 + (hmsv.2.1 : Int) * 60 + (hmsv.2.2 : Int)
              - offMin * 60)
      | _, _, _, _, _ => none
    else none
  | _ => none

/-- Embedding of the lenient fallback
`strptime(raw[:19], "%Y-%m-%d %H:%M:%S")`, interpreted as UTC. -/
def parseIsoLenient (s : String) : Option Int :=
  let s19 := s.data.take 19
  match splitOnChar ' ' s19 with
  | [date, time] =>
    match splitOnChar '-' date, splitOnChar ':' time with
    | [ys, ms, ds], [hs, mis, ss] =>
      match parseNum ys 4 4 0 9999, parseNum ms 1 2 1 12, parseNum ds 1 2 1 31,
            parseNum hs 1 2 0 23, parseNum mis 1 2 0 59, parseNum ss 1 2 0 61 with
      | some y, some m, some d, some h, some mi, some se =>
        some (daysFromCivil (y : Int) (m : Int) (d : Int) * 86400
              + (h : Int) * 3600 + (mi : Int) * 60 + (se : Int))
      | _, _, _, _, _, _ => none
    | _, _ => none
  | _ => none

/-- Lexicographic code-point comparison of character lists: exactly the
string comparison Python performs when sorting by a string key. -/
def charListLe : List Char → List Char → Bool
  | [], _ => true
  | _ :: _, [] => false
  | a :: as, b :: bs =>
    if a.toNat < b.toNat then true
    else if b.toNat < a.toNat then false
    else charListLe as bs

/-- String comparison by code points (the Python `<=` on strings). -/
def strLe (a b : String) : Bool := charListLe a.data b.data

/-- The `created_at` attribute of a raw post as the client hands it over:
either an already structured datetime (carrying the UTC instant it denotes,
with a naive value interpreted as UTC as the source does) or raw text.
The upstream client delivers text. -/
inductive TimeVal where
  | dtime (t : Int)
  | text (s : String)
deriving Repr, DecidableEq

/-- Embedding of the time-parsing block of `get_user_tweets` (lines 78-93):
the attribute must be present and truthy (an empty string is falsy), a
structured datetime is taken as is, text goes through the Twitter wire
format first and the lenient fallback second. -/
def parseTimeField : Option TimeVal → Option Int
  | none => none
  | some (.dtime t) => some t
  | some (.text s) =>
    if s = "" then none
    else
      match parseTwitterTime s with
      | some t => some t
      | none => parseIsoLenient s

/-! ## Data model -/

abbrev TweetId := String

/-- A raw post as delivered by the client.  `text` and `userId` are total
because the upstream client always carries them, so the corresponding
`hasattr` guards in the source are identically true; `isRetweet` models
`retweeted_tweet` being present and truthy; `legacyReplyToUserIdStr` models
`_data["legacy"]["in_reply_to_user_id_str"]` when present. -/
structure RawTweet where
  id : TweetId
  text : String
  userId : String := ""
  isRetweet : Bool := false
  created_at : Option TimeVal := none
  favorite_count : Option Nat := none
  retweet_count : Option Nat := none
  inReplyTo : Option TweetId := none
  legacyReplyToUserIdStr : Option String := none
deriving Repr, DecidableEq

/-- The url built as `https://twitter.com/{account}/status/{id}`, modelled
structurally; extracting `url.split("/")[-1]` is the `statusId` projection. -/
structure Url where
  account : String
  statusId : TweetId
deriving Repr, DecidableEq

/-- One entry of the per-account result list (a Python dict in the source).
`is_thread` and `thread_length` model the keys that only merged entries
gain: a missing `thread_length` key is `none`. -/
structure TweetData where
  username : String
  text : String
  created_at : String
  likes : Nat
  retweets : Nat
  url : Url
  is_thread : Bool := false
  thread_length : Option Nat := none
deriving Repr, DecidableEq

/-- The mutable `self.stats` dictionary. -/
structure Stats where
  total_accounts : Nat := 0
  successful_accounts : Nat := 0
  failed_accounts : Nat := 0
  total_tweets : Nat := 0
  filtered_old_tweets : Nat := 0
  threads_detected : Nat := 0
  errors : List String := []
deriving Repr, DecidableEq

/-! ## Age filter (lines 71-119 of get_user_tweets) -/

/-- Decidable form of: the parsed creation time exists and lies strictly
before the cutoff. -/
def isTooOld (cutoff : Int) (t : RawTweet) : Bool :=
  match parseTimeField t.created_at with
  | some tm => decide (tm < cutoff)
  | none => false

/-- The record built for one kept post (the dict literal of lines 107-114),
with the display time reformatted into the fixed UTC+8 string when a time
was parsed and left empty otherwise. -/
def renderTweet (username : String) (t : RawTweet) : TweetData :=
  { username := username
    text := t.text
    created_at :=
      match parseTimeField t.created_at with
      | some tm => formatBeijing tm
      | none => ""
    likes := t.favorite_count.getD 0
    retweets := t.retweet_count.getD 0
    url := ⟨username, t.id⟩ }

/-- Embedding of the per-post loop of `get_user_tweets` (lines 71-115):
skip repeats, parse the creation time, drop posts whose parsed time is
strictly before the cutoff while counting them, and build the result
record for the rest.  Returns the kept records in order together with the
drop count. -/
def filterBatch (username : String) (cutoff : Int) : List RawTweet → List TweetData × Nat
  | [] => ([], 0)
  | t :: rest =>
    if t.isRetweet then filterBatch username cutoff rest
    else
      match parseTimeField t.created_at with
      | some tm =>
        if tm < cutoff then
          let r := filterBatch username cutoff rest
          (r.1, r.2 + 1)
        else
          let r := filterBatch username cutoff rest
          ({ username := username, text := t.text, created_at := formatBeijing tm,
             likes := t.favorite_count.getD 0, retweets := t.retweet_count.getD 0,
             url := ⟨username, t.id⟩ } :: r.1, r.2)
      | none =>
        let r := filterBatch username cutoff rest
        ({ username := username, text := t.text, created_at := "",
           likes := t.favorite_count.getD 0, retweets := t.retweet_count.getD 0,
           url := ⟨username, t.id⟩ } :: r.1, r.2)

/-! ## Reply edges and root resolution (lines 150-186, 239-246) -/

/-- Lookup in the `reply_to_parent` dict (modelled as an association list
whose keys are unique, as dict keys are). -/
def lookupEdge (edges : List (TweetId × TweetId)) (i : TweetId) : Option TweetId :=
  (edges.find? (fun e => e.1 == i)).map (fun e => e.2)

/-- Final state of one parent-chain walk: the id reached, the visited set
at the stop, and the number of parent steps taken. -/
structure WalkResult where
  root : TweetId
  visited : List TweetId
  steps : Nat
deriving Repr, DecidableEq

/-- Embedding of the walk
`while root in reply_to_parent and root not in visited: visited.add(root); root = reply_to_parent[root]`
(it appears at lines 183-185, 228-230, 244-246 and 273-275 of the source),
written with explicit fuel; `walkFuel` below instantiates the fuel with a
provably sufficient amount. -/
def walkAux (edges : List (TweetId × TweetId)) : Nat → TweetId → List TweetId → WalkResult
  | 0, r, v => ⟨r, v, 0⟩
  | fuel + 1, r, v =>
    match lookupEdge edges r with
    | none => ⟨r, v, 0⟩
    | some p =>
      if r ∈ v then ⟨r, v, 0⟩
      else
        let w := walkAux edges fuel p (r :: v)
        ⟨w.root, w.visited, w.steps + 1⟩

/-- Number of edge keys not yet visited: the termination measure of the walk. -/
def freshKeys (edges : List (TweetId × TweetId)) (v : List TweetId) : Nat :=
  ((edges.map Prod.fst).filter (fun k => decide (k ∉ v))).length

/-- The walk run with sufficient fuel. -/
def walkFuel (edges : List (TweetId × TweetId)) (r : TweetId) (v : List TweetId) : WalkResult :=
  walkAux edges edges.length r v

/-- Root resolution as the rebuild loop runs it (lines 242-246): start at the
id itself with an empty visited set. -/
def resolveRootFrom (edges : List (TweetId × TweetId)) (i : TweetId) : TweetId :=
  (walkFuel edges i []).root

/-- Root resolution as the detection and chain-collection loops run it
(lines 179-185, 225-230, 270-275): start at the recorded parent with the
child already in the visited set. -/
def childChainRoot (edges : List (TweetId × TweetId)) (c p : TweetId) : TweetId :=
  (walkFuel edges p [c]).root

/-- Dict-semantics lookup of `tweet_map` (built at lines 150-152 by
successive assignment, so a later duplicate id overwrites an earlier one). -/
def tweetLookup (raws : List RawTweet) (i : TweetId) : Option RawTweet :=
  raws.foldl (fun acc t => if t.id == i then some t else acc) none

/-- Dict update for `reply_to_parent[child] = parent`: overwrite in place
when the key exists, append otherwise. -/
def insertEdge (es : List (TweetId × TweetId)) (c p : TweetId) : List (TweetId × TweetId) :=
  if es.any (fun e => e.1 == c) then es.map (fun e => if e.1 == c then (c, p) else e)
  else es ++ [(c, p)]

/-- Embedding of the self-reply detection loop (lines 154-172).  The reply
target author is read from the embedded legacy metadata when present and
truthy, and otherwise falls back to the batch lookup: the parent is in the
batch and carries the same author id.  An edge is recorded only when the
confirmed target author equals the author of the post itself. -/
def replyEdges (raws : List RawTweet) : List (TweetId × TweetId) :=
  raws.foldl (fun es t =>
    match t.inReplyTo with
    | none => es
    | some pid =>
      if pid = "" then es
      else
        let fromLegacy : Option String :=
          match t.legacyReplyToUserIdStr with
          | some u => if u = "" then none else some u
          | none => none
        let replyToUser : Option String :=
          match fromLegacy with
          | some u => some u
          | none =>
            match tweetLookup raws pid with
            | some pt => if pt.userId == t.userId then some t.userId else none
            | none => none
        match replyToUser with
        | some u => if u ≠ "" ∧ u == t.userId then insertEdge es t.id pid else es
        | none => es) []

/-- Embedding of the root-collection loop (lines 178-186): resolve every
child and collect the distinct roots.  A Python set iterated in encounter
order; the claims settled below do not depend on the iteration order. -/
def rootIdsOf (edges : List (TweetId × TweetId)) : List TweetId :=
  edges.foldl (fun acc e =>
    let r := childChainRoot edges e.1 e.2
    if acc.contains r then acc else acc ++ [r]) []

/-! ## Local fallback (lines 264-285, _fallback_thread_from_batch) -/

/-- The sort key of line 281:
`x[1].created_at if hasattr(x[1], "created_at") and x[1].created_at else ""`.
The upstream client delivers `created_at` as a string, so the comparison the
sort performs is plain string comparison on that raw value. -/
def fallbackKey (t : RawTweet) : String :=
  match t.created_at with
  | some (.text s) => s
  | some (.dtime _) => ""
  | none => ""

/-- The chain collected by the fallback (lines 266-277): the root when it is
in the batch, then every recorded child whose walk ends at this root and
which is in the batch, in edge order. -/
def chainOf (edges : List (TweetId × TweetId)) (raws : List RawTweet) (root : TweetId) :
    List (TweetId × RawTweet) :=
  (match tweetLookup raws root with
   | some t => [(root, t)]
   | none => []) ++
  edges.filterMap (fun e =>
    if childChainRoot edges e.1 e.2 == root then
      match tweetLookup raws e.1 with
      | some t => some (e.1, t)
      | none => none
    else none)

/-- Embedding of `_fallback_thread_from_batch`: when the collected chain has
at least two entries, sort it ascending by the raw created-at value (stable,
as the Python sort is; `List.insertionSort` is the same stable sort), take
the texts, and record them under the root while counting one detected
thread; otherwise leave the state untouched. -/
def fallbackThread (edges : List (TweetId × TweetId)) (raws : List RawTweet) (root : TweetId)
    (tt : List (TweetId × List String)) (td : Nat) :
    List (TweetId × List String) × Nat :=
  let chain := chainOf edges raws root
  if 1 < chain.length then
    let sorted :=
      List.insertionSort (fun a b => strLe (fallbackKey a.2) (fallbackKey b.2) = true) chain
    let texts := sorted.map (fun x => x.2.text)
    if texts.isEmpty then (tt, td) else (tt ++ [(root, texts)], td + 1)
  else (tt, td)

/-! ## Thread content hydration (lines 190-215) -/

/-- Outcome of one `get_tweet_by_id` call: `ok texts` is a returned root
post whose `thread` attribute yields the given member texts (an empty list
covers a missing or empty thread as well as members without text), `err`
is a raised exception. -/
inductive FetchOutcome where
  | ok (texts : List String)
  | err
deriving Repr, DecidableEq

/-- State threaded through the hydration loop.  `threadTexts` and
`threadsDetected` mirror `thread_texts` and the stats counter; `fetches`
mirrors `thread_fetches`; `attempts` counts remote calls issued and
`paceSleeps` records the pacing delays performed (instrumentation of the
await points, present in the source as the call itself and
`asyncio.sleep(self.request_delay)`). -/
structure HydrateState where
  threadTexts : List (TweetId × List String) := []
  fetches : Nat := 0
  attempts : Nat := 0
  paceSleeps : List Nat := []
  threadsDetected : Nat := 0
deriving Repr, DecidableEq

/-- One iteration body of the hydration loop (lines 197-215), for a root
the loop reached with budget remaining: issue the remote call; on success
count the fetch and sleep once, then either record non-empty thread texts
or fall back locally; on a raised error fall back locally at once (the
source increments `thread_fetches` and sleeps only after a call that did
not raise). -/
def hydrateStep (oracle : TweetId → FetchOutcome) (requestDelay : Nat)
    (edges : List (TweetId × TweetId)) (raws : List RawTweet)
    (root : TweetId) (s : HydrateState) : HydrateState :=
  match oracle root with
  | .err =>
    let s1 : HydrateState := { s with attempts := s.attempts + 1 }
    let fb := fallbackThread edges raws root s1.threadTexts s1.threadsDetected
    { s1 with threadTexts := fb.1, threadsDetected := fb.2 }
  | .ok texts =>
    let s1 : HydrateState :=
      { s with attempts := s.attempts + 1, fetches := s.fetches + 1,
               paceSleeps := s.paceSleeps ++ [requestDelay] }
    if texts.isEmpty then
      let fb := fallbackThread edges raws root s1.threadTexts s1.threadsDetected
      { s1 with threadTexts := fb.1, threadsDetected := fb.2 }
    else
      { s1 with threadTexts := s1.threadTexts ++ [(root, texts)],
                threadsDetected := s1.threadsDetected + 1 }

/-- Embedding of the hydration loop (lines 191-215): process the detected
roots in order, breaking out as soon as `fetches` has reached the budget
`maxThreadFetches`. -/
def hydrateRoots (oracle : TweetId → FetchOutcome) (maxThreadFetches requestDelay : Nat)
    (edges : List (TweetId × TweetId)) (raws : List RawTweet) :
    List TweetId → HydrateState → HydrateState
  | [], s => s
  | root :: rest, s =>
    if maxThreadFetches ≤ s.fetches then s
    else hydrateRoots oracle maxThreadFetches requestDelay edges raws rest
           (hydrateStep oracle requestDelay edges raws root s)

/-! ## Thread merging into the result list (lines 220-262) -/

/-- Lookup in the `thread_texts` dict. -/
def lookupTexts (tt : List (TweetId × List String)) (r : TweetId) : Option (List String) :=
  (tt.find? (fun e => e.1 == r)).map (fun e => e.2)

/-- The ids of one chain (lines 224-232): the root plus every recorded
child whose walk ends at this root. -/
def chainIdsOf (edges : List (TweetId × TweetId)) (root : TweetId) : List TweetId :=
  root :: (edges.filter (fun e => childChainRoot edges e.1 e.2 == root)).map Prod.fst

/-- The `merged_ids` set (lines 221-233): union of the chains of all
hydrated roots. -/
def mergedIdsOf (edges : List (TweetId × TweetId)) (tt : List (TweetId × List String)) :
    List TweetId :=
  (tt.map Prod.fst).foldl (fun acc r => acc ++ chainIdsOf edges r) []

/-- The separator joining member texts of a merged record (line 249). -/
def threadSep : String := "\n---\n"

/-- The synthetic merged record (lines 249-255): a copy of the first chain
member encountered, with the joined text, the thread marker, the member
count, and the url rewritten to the chain root. -/
def mergedPost (username : String) (root : TweetId) (texts : List String)
    (d : TweetData) : TweetData :=
  { d with text := String.intercalate threadSep texts,
           is_thread := true,
           thread_length := some texts.length,
           url := ⟨username, root⟩ }

/-- Embedding of the rebuild loop (lines 236-262): walk the filtered result
list once; a record whose id is in `merged_ids` is replaced by the merged
record the first time its resolved root is seen (and dropped afterwards),
every other record passes through. -/
def rebuildResults (edges : List (TweetId × TweetId)) (tt : List (TweetId × List String))
    (username : String) : List TweetData → List TweetId → List TweetData
  | [], _ => []
  | d :: rest, used =>
    let tid := d.url.statusId
    if tid ∈ mergedIdsOf edges tt then
      let root := resolveRootFrom edges tid
      match lookupTexts tt root with
      | some texts =>
        if root ∈ used then rebuildResults edges tt username rest used
        else mergedPost username root texts d ::
               rebuildResults edges tt username rest (root :: used)
      | none => rebuildResults edges tt username rest used
    else d :: rebuildResults edges tt username rest used

/-- Declarative counterpart of the rebuild loop, written from the words of
the specification: the record at index `i` is replaced by the merged record
exactly when its resolved root is hydrated and no earlier record of the
list resolves to the same root (it is dropped when an earlier one does),
and passes through unchanged when its root is not hydrated.  `used` carries
roots already consumed before this list; the top-level instance starts
empty. -/
def mergerSpecAux (edges : List (TweetId × TweetId)) (tt : List (TweetId × List String))
    (username : String) (used : List TweetId) (results : List TweetData) : List TweetData :=
  results.enum.filterMap (fun ip =>
    let d := ip.2
    let r := resolveRootFrom edges d.url.statusId
    match lookupTexts tt r with
    | some texts =>
      if r ∈ used then none
      else if (results.take ip.1).all
                (fun q => !(resolveRootFrom edges q.url.statusId == r)) then
        some (mergedPost username r texts d)
      else none
    | none => some d)

def mergerSpec (edges : List (TweetId × TweetId)) (tt : List (TweetId × List String))
    (username : String) (results : List TweetData) : List TweetData :=
  mergerSpecAux edges tt username [] results

/-- Embedding of `_merge_threads` end to end: build the self-reply edge
map, return the input untouched when it is empty, resolve the roots,
hydrate them under the fetch budget, and rebuild the result list when
anything was recorded. -/
def mergeThreadsModel (oracle : TweetId → FetchOutcome) (maxThreadFetches requestDelay : Nat)
    (username : String) (results : List TweetData) (raws : List RawTweet) :
    List TweetData × HydrateState :=
  let edges := replyEdges raws
  if edges.isEmpty then (results, {})
  else
    let roots := rootIdsOf edges
    let hs := hydrateRoots oracle maxThreadFetches requestDelay edges raws roots {}
    if hs.threadTexts.isEmpty then (results, hs)
    else (rebuildResults edges hs.threadTexts username results [], hs)

/-! ## Per-account fetch with retry (lines 61-145, get_user_tweets) -/

/-- Outcome of one attempt at the underlying per-account fetch (the pair of
awaited client calls at lines 68-69): a raw batch, or a raised error whose
message classifies as rate limit or not (the `429` or `Rate limit` match of
line 132). -/
inductive AttemptOutcome where
  | ok (raws : List RawTweet)
  | failed (isRateLimit : Bool) (msg : String)

/-- The constructor configuration of the fetcher (only the fields the
embedded core reads). -/
structure FetchConfig where
  request_delay : Nat := 5
  retry_on_rate_limit : Bool := true
  max_retries : Nat := 3
  max_tweet_age_hours : Nat := 9
  enable_thread_merging : Bool := true
  max_thread_fetches : Nat := 3

/-- The success path of one attempt (lines 71-128): age-filter the batch,
update the filtered counter when the drop count is positive, merge threads
when enabled and the filtered list is non-empty, then count the account as
successful and add the final list length to the total. -/
def processSuccess (cfg : FetchConfig) (oracle : TweetId → FetchOutcome)
    (username : String) (now : Int) (raws : List RawTweet) (st : Stats) :
    List TweetData × Stats :=
  let cutoff := now - (cfg.max_tweet_age_hours : Int) * 3600
  let fb := filterBatch username cutoff raws
  let st1 := if 0 < fb.2 then { st with filtered_old_tweets := st.filtered_old_tweets + fb.2 }
             else st
  let merged :=
    if cfg.enable_thread_merging ∧ ¬fb.1.isEmpty then
      mergeThreadsModel oracle cfg.max_thread_fetches cfg.request_delay username fb.1 raws
    else (fb.1, {})
  let st2 := { st1 with threads_detected := st1.threads_detected + merged.2.threadsDetected }
  let st3 := { st2 with successful_accounts := st2.successful_accounts + 1,
                        total_tweets := st2.total_tweets + merged.1.length }
  (merged.1, st3)

/-- Embedding of the attempt loop of `get_user_tweets` (lines 65-145),
driven by an oracle giving the outcome of each attempt.  On a rate-limit
failure with retries enabled and remaining, sleep `(attempt+1) * 30` (the
backoff trace records the sleeps) and continue; on any other failure record
the account as failed, append the error string naming the account and
cause, and return the empty list — the embedded except-branch returns
instead of re-raising, so no error propagates.  The fuel counts the
remaining iterations of `range(max_retries + 1)`. -/
def getUserTweetsAux (cfg : FetchConfig) (oracle : TweetId → FetchOutcome)
    (username : String) (now : Int) (attemptO : Nat → AttemptOutcome) :
    Nat → Nat → Stats → List Nat → List TweetData × Stats × List Nat
  | _, 0, st, sleeps => ([], st, sleeps)
  | attempt, fuel + 1, st, sleeps =>
    match attemptO attempt with
    | .ok raws =>
      let p := processSuccess cfg oracle username now raws st
      (p.1, p.2, sleeps)
    | .failed rl msg =>
      if rl ∧ cfg.retry_on_rate_limit ∧ attempt < cfg.max_retries then
        getUserTweetsAux cfg oracle username now attemptO (attempt + 1) fuel st
          (sleeps ++ [(attempt + 1) * 30])
      else
        ([], { st with failed_accounts := st.failed_accounts + 1,
                       errors := st.errors ++ ["@" ++ username ++ ": " ++ msg] }, sleeps)

def getUserTweets (cfg : FetchConfig) (oracle : TweetId → FetchOutcome)
    (username : String) (now : Int) (attemptO : Nat → AttemptOutcome) (st : Stats) :
    List TweetData × Stats × List Nat :=
  getUserTweetsAux cfg oracle username now attemptO 0 (cfg.max_retries + 1) st []

/-! ## Concurrent orchestrator (lines 287-318, fetch_multiple_accounts) -/

/-- Apply the per-task writes `results[index] = tweets` in an arbitrary
completion order.  `fetchOf` gives the final per-account list each task
computes for its index. -/
def applyWrites (fetchOf : Nat → List TweetData) (order : List Nat)
    (slots : List (Option (List TweetData))) : List (Option (List TweetData)) :=
  order.foldl (fun s i => s.set i (some (fetchOf i))) slots

/-- The flattening loop of lines 305-308: `if tweets:` skips unfilled slots
and empty lists. -/
def flattenPhase (slots : List (Option (List TweetData))) : List TweetData :=
  slots.foldl (fun acc o =>
    match o with
    | some l => if l.isEmpty then acc else acc ++ l
    | none => acc) []

/-- Embedding of `fetch_multiple_accounts`: pre-size the slot list, run the
writes in the given completion order, flatten. -/
def fetchMultipleAccounts (fetchOf : String → List TweetData) (accounts : List String)
    (order : List Nat) : List TweetData :=
  flattenPhase (applyWrites (fun i => fetchOf (accounts.getD i "")) order
    (List.replicate accounts.length none))

/-! ## Walk lemmas: the parent-chain walk terminates within the fuel given -/

theorem mem_keys_of_lookupEdge {edges : List (TweetId × TweetId)} {r p : TweetId}
    (h : lookupEdge edges r = some p) : r ∈ edges.map Prod.fst := by
  unfold lookupEdge at h
  cases hfind : edges.find? (fun e => e.1 == r) with
  | none => rw [hfind] at h; simp at h
  | some e =>
    have hm := List.mem_of_find?_eq_some hfind
    have hp := List.find?_some hfind
    have he : e.1 = r := by simpa using hp
    exact he ▸ List.mem_map_of_mem Prod.fst hm

theorem length_filter_lt_of_mem {α : Type} {p : α → Bool} {l : List α} {x : α}
    (hx : x ∈ l) (hp : p x = false) : (l.filter p).length < l.length := by
  induction l with
  | nil => cases hx
  | cons a rest ih =>
    rcases List.mem_cons.mp hx with h | h
    · subst h
      have h1 : (rest.filter p).length ≤ rest.length := List.length_filter_le p rest
      have h2 : (x :: rest).filter p = rest.filter p := by simp [List.filter_cons, hp]
      rw [h2, List.length_cons]
      omega
    · cases hpa : p a with
      | true =>
        have h2 : (a :: rest).filter p = a :: rest.filter p := by simp [List.filter_cons, hpa]
        rw [h2, List.length_cons, List.length_cons]
        exact Nat.succ_lt_succ (ih h)
      | false =>
        have h1 : (rest.filter p).length ≤ rest.length := List.length_filter_le p rest
        have h2 : (a :: rest).filter p = rest.filter p := by simp [List.filter_cons, hpa]
        rw [h2, List.length_cons]
        omega

theorem freshKeys_pos {edges : List (TweetId × TweetId)} {r p : TweetId} {v : List TweetId}
    (h : lookupEdge edges r = some p) (hv : r ∉ v) : 0 < freshKeys edges v := by
  have hk := mem_keys_of_lookupEdge h
  have : r ∈ (edges.map Prod.fst).filter (fun k => decide (k ∉ v)) :=
    List.mem_filter.mpr ⟨hk, by simpa using hv⟩
  unfold freshKeys
  exact List.length_pos.mpr (List.ne_nil_of_mem this)

theorem freshKeys_cons_lt {edges : List (TweetId × TweetId)} {r p : TweetId} {v : List TweetId}
    (h : lookupEdge edges r = some p) (hv : r ∉ v) :
    freshKeys edges (r :: v) < freshKeys edges v := by
  have hk := mem_keys_of_lookupEdge h
  unfold freshKeys
  have hcong : (edges.map Prod.fst).filter (fun k => decide (k ∉ r :: v)) =
      ((edges.map Prod.fst).filter (fun k => decide (k ∉ v))).filter (fun k => decide (k ≠ r)) := by
    rw [List.filter_filter]
    apply List.filter_congr
    intro k _
    simp only [List.mem_cons, not_or, Bool.decide_and, decide_not, ne_eq]
  rw [hcong]
  refine length_filter_lt_of_mem (List.mem_filter.mpr ⟨hk, ?_⟩) ?_
  · simpa using hv
  · simp

theorem freshKeys_le_length (edges : List (TweetId × TweetId)) (v : List TweetId) :
    freshKeys edges v ≤ edges.length := by
  unfold freshKeys
  calc ((edges.map Prod.fst).filter _).length ≤ (edges.map Prod.fst).length :=
        List.length_filter_le _ _
    _ = edges.length := List.length_map _ _

theorem walkAux_succ_none {edges : List (TweetId × TweetId)} {r : TweetId} {v : List TweetId}
    (hl : lookupEdge edges r = none) (fuel : Nat) :
    walkAux edges (fuel + 1) r v = ⟨r, v, 0⟩ := by
  simp [walkAux, hl]

theorem walkAux_succ_mem {edges : List (TweetId × TweetId)} {r p : TweetId} {v : List TweetId}
    (hl : lookupEdge edges r = some p) (hv : r ∈ v) (fuel : Nat) :
    walkAux edges (fuel + 1) r v = ⟨r, v, 0⟩ := by
  simp [walkAux, hl, hv]

theorem walkAux_succ_go {edges : List (TweetId × TweetId)} {r p : TweetId} {v : List TweetId}
    (hl : lookupEdge edges r = some p) (hv : r ∉ v) (fuel : Nat) :
    walkAux edges (fuel + 1) r v =
      ⟨(walkAux edges fuel p (r :: v)).root, (walkAux edges fuel p (r :: v)).visited,
       (walkAux edges fuel p (r :: v)).steps + 1⟩ := by
  simp [walkAux, hl, hv]

theorem walkAux_fuel_succ (edges : List (TweetId × TweetId)) :
    ∀ fuel r v, freshKeys edges v ≤ fuel →
      walkAux edges (fuel + 1) r v = walkAux edges fuel r v := by
  intro fuel
  induction fuel with
  | zero =>
    intro r v h
    cases hl : lookupEdge edges r with
    | none => rw [walkAux_succ_none hl]; rfl
    | some p =>
      by_cases hv : r ∈ v
      · rw [walkAux_succ_mem hl hv]; rfl
      · exact absurd h (by have := freshKeys_pos hl hv; omega)
  | succ fuel ih =>
    intro r v h
    cases hl : lookupEdge edges r with
    | none => rw [walkAux_succ_none hl, walkAux_succ_none hl]
    | some p =>
      by_cases hv : r ∈ v
      · rw [walkAux_succ_mem hl hv, walkAux_succ_mem hl hv]
      · have hlt := freshKeys_cons_lt hl hv
        have hle : freshKeys edges (r :: v) ≤ fuel := by omega
        rw [walkAux_succ_go hl hv, walkAux_succ_go hl hv, ih p (r :: v) hle]

theorem walkAux_fuel_add (edges : List (TweetId × TweetId)) (k : Nat) :
    ∀ fuel r v, freshKeys edges v ≤ fuel →
      walkAux edges (fuel + k) r v = walkAux edges fuel r v := by
  induction k with
  | zero => intro fuel r v _; rfl
  | succ k ih =>
    intro fuel r v h
    have : fuel + (k + 1) = (fuel + k) + 1 := by omega
    rw [this, walkAux_fuel_succ edges (fuel + k) r v (by omega), ih fuel r v h]

theorem walkAux_fuel_le (edges : List (TweetId × TweetId)) {f1 f2 : Nat} (r : TweetId)
    (v : List TweetId) (h1 : freshKeys edges v ≤ f1) (h2 : f1 ≤ f2) :
    walkAux edges f2 r v = walkAux edges f1 r v := by
  have : f2 = f1 + (f2 - f1) := by omega
  rw [this, walkAux_fuel_add edges (f2 - f1) f1 r v h1]

theorem walkAux_stop (edges : List (TweetId × TweetId)) :
    ∀ fuel r v, freshKeys edges v ≤ fuel →
      lookupEdge edges (walkAux edges fuel r v).root = none ∨
      (walkAux edges fuel r v).root ∈ (walkAux edges fuel r v).visited := by
  intro fuel
  induction fuel with
  | zero =>
    intro r v h
    cases hl : lookupEdge edges r with
    | none => left; simpa [walkAux] using hl
    | some p =>
      by_cases hv : r ∈ v
      · right; simpa [walkAux] using hv
      · exact absurd h (by have := freshKeys_pos hl hv; omega)
  | succ fuel ih =>
    intro r v h
    cases hl : lookupEdge edges r with
    | none => left; rw [walkAux_succ_none hl]; exact hl
    | some p =>
      by_cases hv : r ∈ v
      · right; rw [walkAux_succ_mem hl hv]; exact hv
      · have hlt := freshKeys_cons_lt hl hv
        have hle : freshKeys edges (r :: v) ≤ fuel := by omega
        have := ih p (r :: v) hle
        rw [walkAux_succ_go hl hv]
        exact this

theorem walkAux_steps_le (edges : List (TweetId × TweetId)) :
    ∀ fuel r v, freshKeys edges v ≤ fuel →
      (walkAux edges fuel r v).steps ≤ freshKeys edges v := by
  intro fuel
  induction fuel with
  | zero => intro r v _; simp [walkAux]
  | succ fuel ih =>
    intro r v h
    cases hl : lookupEdge edges r with
    | none => rw [walkAux_succ_none hl]; simp
    | some p =>
      by_cases hv : r ∈ v
      · rw [walkAux_succ_mem hl hv]; simp
      · have hlt := freshKeys_cons_lt hl hv
        have hle : freshKeys edges (r :: v) ≤ fuel := by omega
        have := ih p (r :: v) hle
        rw [walkAux_succ_go hl hv]
        simp only []
        omega

/-! ## Claim C8: the root-resolution walk terminates -/

/-- C8: for every batch edge map and every child holding a reply edge, the
root-resolution walk (started, as the source does, at the recorded parent
with the child already marked visited) stops either at an id with no parent
edge or at an id already seen in the walk, takes at most `B` parent steps
whenever the edge map has at most `B` entries (the edge map holds at most
one entry per batch post, so the batch size is such a bound), and its
result is unchanged by any additional fuel: the resolver never loops
forever. -/
theorem claim_C8_walk_terminates (edges : List (TweetId × TweetId)) (c p : TweetId) (B : Nat)
    (_hmem : (c, p) ∈ edges) (hB : edges.length ≤ B) :
    (lookupEdge edges (walkFuel edges p [c]).root = none ∨
      (walkFuel edges p [c]).root ∈ (walkFuel edges p [c]).visited) ∧
    (walkFuel edges p [c]).steps ≤ B ∧
    (∀ extra, walkAux edges (edges.length + extra) p [c] = walkFuel edges p [c]) := by
  have hfk : freshKeys edges [c] ≤ edges.length := freshKeys_le_length edges [c]
  refine ⟨walkAux_stop edges edges.length p [c] hfk, ?_, ?_⟩
  · have h1 := walkAux_steps_le edges edges.length p [c] hfk
    have h2 := freshKeys_le_length edges [c]
    unfold walkFuel
    omega
  · intro extra
    exact walkAux_fuel_add edges extra edges.length p [c] hfk

theorem claim_C8_witness :
    (lookupEdge [("a", "b"), ("b", "a")] (walkFuel [("a", "b"), ("b", "a")] "b" ["a"]).root = none ∨
      (walkFuel [("a", "b"), ("b", "a")] "b" ["a"]).root ∈
        (walkFuel [("a", "b"), ("b", "a")] "b" ["a"]).visited) ∧
    (walkFuel [("a", "b"), ("b", "a")] "b" ["a"]).steps ≤ 2 ∧
    (∀ extra, walkAux [("a", "b"), ("b", "a")] ([("a", "b"), ("b", "a")].length + extra) "b" ["a"] =
      walkFuel [("a", "b"), ("b", "a")] "b" ["a"]) :=
  claim_C8_walk_terminates [("a", "b"), ("b", "a")] "a" "b" 2 (by decide) (by decide)

/-! ## Claim C4: the age filter -/

/-- C4: a fetched post is dropped by the age filter exactly when it is not
a repeat, its parsed creation time exists and that time is strictly before
the cutoff; the drop count equals the number of such posts and is what the
`filtered_old_tweets` counter grows by; every kept post is rendered by
`renderTweet`, whose display time is empty exactly when no time parsed and
is the fixed UTC+8 string of the parsed instant otherwise. -/
theorem claim_C4_age_filter (username : String) (cutoff : Int) (raws : List RawTweet) :
    (filterBatch username cutoff raws).1 =
      (raws.filter (fun t => !t.isRetweet && !isTooOld cutoff t)).map (renderTweet username) ∧
    (filterBatch username cutoff raws).2 =
      (raws.filter (fun t => !t.isRetweet && isTooOld cutoff t)).length ∧
    (∀ t : RawTweet, isTooOld cutoff t = true ↔
      ∃ tm, parseTimeField t.created_at = some tm ∧ tm < cutoff) ∧
    (∀ t : RawTweet, parseTimeField t.created_at = none →
      (renderTweet username t).created_at = "") ∧
    (∀ (t : RawTweet) (tm : Int), parseTimeField t.created_at = some tm →
      (renderTweet username t).created_at = formatBeijing tm) ∧
    (∀ (cfg : FetchConfig) (oracle : TweetId → FetchOutcome) (now : Int) (st : Stats),
      (processSuccess cfg oracle username now raws st).2.filtered_old_tweets =
        st.filtered_old_tweets +
          (raws.filter (fun t => !t.isRetweet &&
            isTooOld (now - (cfg.max_tweet_age_hours : Int) * 3600) t)).length) := by
  have main : ∀ cut : Int,
      (filterBatch username cut raws).1 =
        (raws.filter (fun t => !t.isRetweet && !isTooOld cut t)).map (renderTweet username) ∧
      (filterBatch username cut raws).2 =
        (raws.filter (fun t => !t.isRetweet && isTooOld cut t)).length := by
    intro cut
    induction raws with
    | nil => exact ⟨rfl, rfl⟩
    | cons t rest ih =>
      cases hrt : t.isRetweet with
      | true => simpa [filterBatch, hrt, List.filter_cons] using ih
      | false =>
        cases hp : parseTimeField t.created_at with
        | none =>
          have hold : isTooOld cut t = false := by simp [isTooOld, hp]
          refine ⟨?_, ?_⟩
          · simp only [filterBatch, hrt, hp, Bool.false_eq_true, if_false,
              List.filter_cons, hold, Bool.not_false, Bool.and_true, Bool.and_false,
              Bool.not_true, List.map_cons]
            congr 1
            · simp [renderTweet, hp]
            · exact ih.1
          · simpa [filterBatch, hrt, hp, List.filter_cons, hold] using ih.2
        | some tm =>
          by_cases hcut : tm < cut
          · have hold : isTooOld cut t = true := by simp [isTooOld, hp, hcut]
            refine ⟨?_, ?_⟩
            · simpa [filterBatch, hrt, hp, hcut, List.filter_cons, hold] using ih.1
            · simpa [filterBatch, hrt, hp, hcut, List.filter_cons, hold] using ih.2
          · have hold : isTooOld cut t = false := by simp [isTooOld, hp, hcut]
            refine ⟨?_, ?_⟩
            · simp only [filterBatch, hrt, hp, Bool.false_eq_true, if_false,
                if_neg hcut, List.filter_cons, hold, Bool.not_false, Bool.and_true,
                List.map_cons]
              congr 1
              · simp [renderTweet, hp]
              · exact ih.1
            · simpa [filterBatch, hrt, hp, hcut, List.filter_cons, hold] using ih.2
  refine ⟨(main cutoff).1, (main cutoff).2, ?_, ?_, ?_, ?_⟩
  · intro t
    cases hp : parseTimeField t.created_at with
    | none => simp [isTooOld, hp]
    | some tm => simp [isTooOld, hp]
  · intro t hp; simp [renderTweet, hp]
  · intro t tm hp; simp [renderTweet, hp]
  · intro cfg oracle now st
    have h2 := (main (now - (cfg.max_tweet_age_hours : Int) * 3600)).2
    simp only [processSuccess]
    split
    · simp [h2]
    · simp only [Stats.mk.injEq] at *
      omega

theorem claim_C4_witness :
    (filterBatch "u" 100
      [{ id := "1", text := "old", created_at := some (.dtime 50) },
       { id := "2", text := "new", created_at := some (.dtime 150) },
       { id := "3", text := "untimed" }]).2 = 1 ∧
    (renderTweet "u" { id := "3", text := "untimed" }).created_at = "" ∧
    (renderTweet "u" { id := "2", text := "new", created_at := some (.dtime 150) }).created_at =
      formatBeijing 150 := by
  have h := claim_C4_age_filter "u" 100
    [{ id := "1", text := "old", created_at := some (.dtime 50) },
     { id := "2", text := "new", created_at := some (.dtime 150) },
     { id := "3", text := "untimed" }]
  refine ⟨?_, ?_, ?_⟩
  · rw [h.2.1]; decide
  · exact h.2.2.2.1 { id := "3", text := "untimed" } (by decide)
  · exact h.2.2.2.2.1 { id := "2", text := "new", created_at := some (.dtime 150) } 150 (by decide)

/-! ## Claim C10: the silent repeat exclusion -/

/-- C10: a fetched raw post whose repeat marker is set is excluded from the
result list before the age filter runs, and the exclusion leaves both the
kept list and the dropped-count (hence `filtered_old_tweets` and every
statistic derived from the list) exactly as they are without the post. -/
theorem claim_C10_retweet_excluded (username : String) (cutoff : Int) (t : RawTweet)
    (raws : List RawTweet) (h : t.isRetweet = true) :
    filterBatch username cutoff (t :: raws) = filterBatch username cutoff raws := by
  simp [filterBatch, h]

theorem claim_C10_witness :
    filterBatch "u" 0
      [{ id := "9", text := "rt", isRetweet := true, created_at := some (.dtime 500) },
       { id := "1", text := "a" }] =
    filterBatch "u" 0 [{ id := "1", text := "a" }] :=
  claim_C10_retweet_excluded "u" 0
    { id := "9", text := "rt", isRetweet := true, created_at := some (.dtime 500) }
    [{ id := "1", text := "a" }] rfl

/-! ## Claim C1: the hydration fetch budget -/

/-- C1 counterexample: with a budget of one fetch and two detected roots
whose remote calls both raise, the loop issues two remote attempts —
more than `max_thread_fetches` — while the budget counter stays at zero
and no pacing delay is performed.  This refutes the claim that every
attempt decrements the budget and is followed by a pacing delay regardless
of outcome, with the attempt count bounded by the budget. -/
theorem claim_C1_counterexample :
    (hydrateRoots (fun _ => .err) 1 5 [] [] ["r1", "r2"] {}).attempts = 2 ∧
    1 < (hydrateRoots (fun _ => .err) 1 5 [] [] ["r1", "r2"] {}).attempts ∧
    (hydrateRoots (fun _ => .err) 1 5 [] [] ["r1", "r2"] {}).fetches = 0 ∧
    (hydrateRoots (fun _ => .err) 1 5 [] [] ["r1", "r2"] {}).paceSleeps = [] := by
  refine ⟨rfl, by decide, rfl, rfl⟩

/-- C1 as amended: only a remote call that does not raise consumes budget,
and exactly those calls are followed by one pacing delay each: a raised
call leaves the budget counter and the pacing trace untouched.  Starting
from the initial state, the number of successful remote fetches therefore
never exceeds `max_thread_fetches` and the pacing trace is one
`request_delay` entry per successful fetch, while the attempt count is not
bounded by the budget when attempts fail. -/
theorem claim_C1_amended (oracle : TweetId → FetchOutcome) (maxF delay : Nat)
    (edges : List (TweetId × TweetId)) (raws : List RawTweet) (roots : List TweetId)
    (root : TweetId) (s : HydrateState) (hs : s.fetches < maxF) :
    (hydrateRoots oracle maxF delay edges raws roots {}).fetches ≤ maxF ∧
    (hydrateRoots oracle maxF delay edges raws roots {}).paceSleeps =
      List.replicate (hydrateRoots oracle maxF delay edges raws roots {}).fetches delay ∧
    (oracle root = .err →
      (hydrateRoots oracle maxF delay edges raws [root] s).fetches = s.fetches ∧
      (hydrateRoots oracle maxF delay edges raws [root] s).paceSleeps = s.paceSleeps) ∧
    (∀ texts, oracle root = .ok texts →
      (hydrateRoots oracle maxF delay edges raws [root] s).fetches = s.fetches + 1 ∧
      (hydrateRoots oracle maxF delay edges raws [root] s).paceSleeps =
        s.paceSleeps ++ [delay]) := by
  have hbound : ∀ rs (st : HydrateState), st.fetches ≤ maxF →
      (hydrateRoots oracle maxF delay edges raws rs st).fetches ≤ maxF := by
    intro rs
    induction rs with
    | nil => intro st h; exact h
    | cons r rest ih =>
      intro st h
      by_cases hstop : maxF ≤ st.fetches
      · simpa [hydrateRoots, hstop] using h
      · have hlt : st.fetches < maxF := by omega
        have hstep : (hydrateStep oracle delay edges raws r st).fetches ≤ maxF := by
          unfold hydrateStep
          cases oracle r with
          | err => simpa using h
          | ok texts =>
            by_cases he : texts.isEmpty <;> simp [he] <;> omega
        simpa [hydrateRoots, hstop] using ih _ hstep
  have htrace : ∀ rs (st : HydrateState),
      (hydrateRoots oracle maxF delay edges raws rs st).paceSleeps =
        st.paceSleeps ++ List.replicate
          ((hydrateRoots oracle maxF delay edges raws rs st).fetches - st.fetches) delay ∧
      st.fetches ≤ (hydrateRoots oracle maxF delay edges raws rs st).fetches := by
    intro rs
    induction rs with
    | nil => intro st; simp [hydrateRoots]
    | cons r rest ih =>
      intro st
      by_cases hstop : maxF ≤ st.fetches
      · simp [hydrateRoots, hstop]
      · have hstep : (hydrateStep oracle delay edges raws r st).paceSleeps =
            st.paceSleeps ++ List.replicate
              ((hydrateStep oracle delay edges raws r st).fetches - st.fetches) delay ∧
            st.fetches ≤ (hydrateStep oracle delay edges raws r st).fetches := by
          unfold hydrateStep
          cases oracle r with
          | err => simp
          | ok texts => by_cases he : texts.isEmpty <;> simp [he]
        have hrec := ih (hydrateStep oracle delay edges raws r st)
        constructor
        · rw [show hydrateRoots oracle maxF delay edges raws (r :: rest) st =
                hydrateRoots oracle maxF delay edges raws rest
                  (hydrateStep oracle delay edges raws r st) from by
              simp [hydrateRoots, hstop]]
          rw [hrec.1, hstep.1, List.append_assoc]
          congr 1
          rw [← List.replicate_add]
          congr 1
          omega
        · rw [show hydrateRoots oracle maxF delay edges raws (r :: rest) st =
                hydrateRoots oracle maxF delay edges raws rest
                  (hydrateStep oracle delay edges raws r st) from by
              simp [hydrateRoots, hstop]]
          omega
  refine ⟨hbound roots {} (by simp), ?_, ?_, ?_⟩
  · have h := htrace roots {}
    simpa using h.1
  · intro herr
    have : hydrateRoots oracle maxF delay edges raws [root] s =
        hydrateStep oracle delay edges raws root s := by
      simp [hydrateRoots, Nat.not_le.mpr hs]
    rw [this]
    unfold hydrateStep
    rw [herr]
    exact ⟨rfl, rfl⟩
  · intro texts hok
    have : hydrateRoots oracle maxF delay edges raws [root] s =
        hydrateStep oracle delay edges raws root s := by
      simp [hydrateRoots, Nat.not_le.mpr hs]
    rw [this]
    unfold hydrateStep
    rw [hok]
    by_cases he : texts.isEmpty <;> simp [he]

theorem claim_C1_witness :
    (hydrateRoots (fun r => if r == "r1" then .ok ["x"] else .err) 2 7 [] [] ["r1", "r2"] {}).fetches ≤ 2 ∧
    (hydrateRoots (fun r => if r == "r1" then .ok ["x"] else .err) 2 7 [] [] ["r1", "r2"] {}).paceSleeps =
      List.replicate (hydrateRoots (fun r => if r == "r1" then .ok ["x"] else .err) 2 7 [] [] ["r1", "r2"] {}).fetches 7 ∧
    ((fun r => if r == "r1" then (FetchOutcome.ok ["x"]) else .err) "r2" = .err →
      (hydrateRoots (fun r => if r == "r1" then .ok ["x"] else .err) 2 7 [] [] ["r2"] {}).fetches =
        HydrateState.fetches {} ∧
      (hydrateRoots (fun r => if r == "r1" then .ok ["x"] else .err) 2 7 [] [] ["r2"] {}).paceSleeps =
        HydrateState.paceSleeps {}) ∧
    (∀ texts, (fun r => if r == "r1" then (FetchOutcome.ok ["x"]) else .err) "r2" = .ok texts →
      (hydrateRoots (fun r => if r == "r1" then .ok ["x"] else .err) 2 7 [] [] ["r2"] {}).fetches =
        HydrateState.fetches {} + 1 ∧
      (hydrateRoots (fun r => if r == "r1" then .ok ["x"] else .err) 2 7 [] [] ["r2"] {}).paceSleeps =
        HydrateState.paceSleeps {} ++ [7]) :=
  claim_C1_amended (fun r => if r == "r1" then .ok ["x"] else .err) 2 7 [] [] ["r1", "r2"] "r2"
    {} (by decide)

/-! ## Claim C3: the local fallback -/

theorem lookupEdge_eq_some_iff {edges : List (TweetId × TweetId)}
    (hN : (edges.map Prod.fst).Nodup) (i p : TweetId) :
    lookupEdge edges i = some p ↔ (i, p) ∈ edges := by
  induction edges with
  | nil => simp [lookupEdge]
  | cons e rest ih =>
    have hN' : (rest.map Prod.fst).Nodup := (List.nodup_cons.mp hN).2
    have hkey : e.1 ∉ rest.map Prod.fst := (List.nodup_cons.mp hN).1
    by_cases he : e.1 = i
    · have hfind : lookupEdge (e :: rest) i = some e.2 := by
        unfold lookupEdge
        rw [List.find?_cons_of_pos _ (by simpa using he)]
        rfl
      rw [hfind]
      constructor
      · intro h
        have hp : p = e.2 := by simpa using h.symm
        subst hp
        subst he
        exact List.mem_cons_self _ _
      · intro h
        rcases List.mem_cons.mp h with h1 | h1
        · rw [← h1]
        · exact absurd (he ▸ List.mem_map_of_mem Prod.fst h1) hkey
    · have hfind : lookupEdge (e :: rest) i = lookupEdge rest i := by
        unfold lookupEdge
        rw [List.find?_cons_of_neg _ (by simpa using he)]
      rw [hfind, ih hN']
      constructor
      · intro h; exact List.mem_cons_of_mem _ h
      · intro h
        rcases List.mem_cons.mp h with h1 | h1
        · exact absurd (congrArg Prod.fst h1).symm he
        · exact h1

theorem charListLe_total : ∀ a b : List Char, charListLe a b = true ∨ charListLe b a = true := by
  intro a
  induction a with
  | nil => intro b; left; rfl
  | cons x as ih =>
    intro b
    cases b with
    | nil => right; rfl
    | cons y bs =>
      by_cases h1 : x.toNat < y.toNat
      · left; simp [charListLe, h1]
      · by_cases h2 : y.toNat < x.toNat
        · right; simp [charListLe, h2]
        · rcases ih bs with h | h
          · left; simp [charListLe, h1, h2, h]
          · right; simp [charListLe, h1, h2, h]

theorem charListLe_trans : ∀ a b c : List Char,
    charListLe a b = true → charListLe b c = true → charListLe a c = true := by
  intro a
  induction a with
  | nil => intro b c _ _; rfl
  | cons x as ih =>
    intro b c hab hbc
    cases b with
    | nil => simp [charListLe] at hab
    | cons y bs =>
      cases c with
      | nil => simp [charListLe] at hbc
      | cons z cs =>
        by_cases hxy : x.toNat < y.toNat
        · by_cases hyz : y.toNat < z.toNat
          · have hxz : x.toNat < z.toNat := by omega
            simp [charListLe, hxz]
          · by_cases hzy : z.toNat < y.toNat
            · simp [charListLe, hyz, hzy] at hbc
            · have hxz : x.toNat < z.toNat := by omega
              simp [charListLe, hxz]
        · by_cases hyx : y.toNat < x.toNat
          · simp [charListLe, hxy, hyx] at hab
          · have hab' : charListLe as bs = true := by
              simpa [charListLe, hxy, hyx] using hab
            by_cases hyz : y.toNat < z.toNat
            · have hxz : x.toNat < z.toNat := by omega
              simp [charListLe, hxz]
            · by_cases hzy : z.toNat < y.toNat
              · simp [charListLe, hyz, hzy] at hbc
              · have hbc' : charListLe bs cs = true := by
                  simpa [charListLe, hyz, hzy] using hbc
                have hxz1 : ¬x.toNat < z.toNat := by omega
                have hxz2 : ¬z.toNat < x.toNat := by omega
                simp [charListLe, hxz1, hxz2, ih bs cs hab' hbc']

/-- C3 counterexample: two refuting facts about `_fallback_thread_from_batch`.
First, for a root outside the batch with exactly one batch post resolving to
it, one text is producible from the batch, yet the fallback records nothing
and marks no thread detected, against the claim that a result is recorded
whenever at least one text is produced.  Second, with two batch posts in the
primary textual timestamp format, the fallback records the texts ordered by
raw string comparison — here descending in creation time (the parsed times
say the first post is strictly earlier), against the claimed ascending
creation-time order. -/
theorem claim_C3_counterexample :
    (fallbackThread [("2", "1")] [{ id := "2", text := "b" }] "1" [] 0 = ([], 0) ∧
     (chainOf [("2", "1")] [{ id := "2", text := "b" }] "1").map (fun x => x.2.text) = ["b"]) ∧
    (parseTimeField (some (.text "Wed Oct 10 20:19:24 +0000 2018")) = some 1539202764 ∧
     parseTimeField (some (.text "Thu Oct 11 20:19:24 +0000 2018")) = some 1539289164 ∧
     (1539202764 : Int) < 1539289164 ∧
     fallbackThread [("2", "1")]
       [{ id := "1", text := "a", created_at := some (.text "Wed Oct 10 20:19:24 +0000 2018") },
        { id := "2", text := "b", created_at := some (.text "Thu Oct 11 20:19:24 +0000 2018") }]
       "1" [] 0 = ([("1", ["b", "a"])], 1)) := by
  exact ⟨⟨rfl, rfl⟩, by decide, by decide, by decide, by decide⟩

/-- C3 as amended: the chain the fallback collects consists of exactly the
root (when present in the batch) plus every batch post holding a reply edge
whose resolver walk ends at this root; when at least two such posts are
collected, the fallback records their texts ordered ascending by the raw
created-at string under code-point comparison (absent or falsy values
sorting as empty, hence earliest) and marks one thread detected; when at
most one post is collected it records nothing. -/
theorem claim_C3_amended (edges : List (TweetId × TweetId)) (raws : List RawTweet)
    (root : TweetId) (tt : List (TweetId × List String)) (td : Nat)
    (hN : (edges.map Prod.fst).Nodup) :
    (∀ i t, (i, t) ∈ chainOf edges raws root ↔
      (tweetLookup raws i = some t ∧
        (i = root ∨ ∃ p, lookupEdge edges i = some p ∧ childChainRoot edges i p = root))) ∧
    (2 ≤ (chainOf edges raws root).length →
      ∃ ms : List (TweetId × RawTweet),
        ms.Perm (chainOf edges raws root) ∧
        ms.Pairwise (fun a b => strLe (fallbackKey a.2) (fallbackKey b.2) = true) ∧
        fallbackThread edges raws root tt td =
          (tt ++ [(root, ms.map (fun x => x.2.text))], td + 1)) ∧
    ((chainOf edges raws root).length ≤ 1 →
      fallbackThread edges raws root tt td = (tt, td)) := by
  refine ⟨?_, ?_, ?_⟩
  · intro i t
    unfold chainOf
    rw [List.mem_append, List.mem_filterMap]
    constructor
    · intro h
      rcases h with h | ⟨e, he, hfe⟩
      · cases hr : tweetLookup raws root with
        | none => rw [hr] at h; cases h
        | some t0 =>
          rw [hr] at h
          have h1 : i = root ∧ t = t0 := by simpa using h
          exact ⟨h1.1 ▸ h1.2 ▸ hr, Or.inl h1.1⟩
      · by_cases hc : childChainRoot edges e.1 e.2 == root
        · rw [if_pos hc] at hfe
          cases hl : tweetLookup raws e.1 with
          | none => rw [hl] at hfe; cases hfe
          | some t1 =>
            rw [hl] at hfe
            have h1 : e.1 = i ∧ t1 = t := by simpa using hfe
            refine ⟨h1.1 ▸ h1.2 ▸ hl, Or.inr ⟨e.2, ?_, ?_⟩⟩
            · exact (lookupEdge_eq_some_iff hN i e.2).mpr (h1.1 ▸ he)
            · exact h1.1 ▸ (by simpa using hc)
        · rw [if_neg hc] at hfe; cases hfe
    · rintro ⟨hl, hroot | ⟨p, hlk, hc⟩⟩
      · subst hroot
        left
        rw [hl]
        simp
      · right
        refine ⟨(i, p), (lookupEdge_eq_some_iff hN i p).mp hlk, ?_⟩
        rw [if_pos (by simpa using hc), hl]
  · intro hlen
    haveI htot : IsTotal (TweetId × RawTweet)
        (fun a b => strLe (fallbackKey a.2) (fallbackKey b.2) = true) :=
      ⟨fun a b => charListLe_total (fallbackKey a.2).data (fallbackKey b.2).data⟩
    haveI htr : IsTrans (TweetId × RawTweet)
        (fun a b => strLe (fallbackKey a.2) (fallbackKey b.2) = true) :=
      ⟨fun _ _ _ hab hbc => charListLe_trans _ _ _ hab hbc⟩
    refine ⟨List.insertionSort (fun a b => strLe (fallbackKey a.2) (fallbackKey b.2) = true)
      (chainOf edges raws root), List.perm_insertionSort _ _,
      List.sorted_insertionSort _ _, ?_⟩
    have hlen2 : (List.insertionSort (fun a b => strLe (fallbackKey a.2) (fallbackKey b.2) = true)
        (chainOf edges raws root)).length = (chainOf edges raws root).length :=
      (List.perm_insertionSort _ _).length_eq
    have hne : ((List.insertionSort (fun a b => strLe (fallbackKey a.2) (fallbackKey b.2) = true)
        (chainOf edges raws root)).map (fun x => x.2.text)).isEmpty = false := by
      rw [List.isEmpty_eq_false_iff_exists_mem]
      have hpos : 0 < (List.insertionSort
          (fun a b => strLe (fallbackKey a.2) (fallbackKey b.2) = true)
          (chainOf edges raws root)).length := by omega
      rcases List.exists_mem_of_length_pos hpos with ⟨x, hx⟩
      exact ⟨x.2.text, List.mem_map_of_mem _ hx⟩
    unfold fallbackThread
    rw [if_pos (by omega : 1 < (chainOf edges raws root).length)]
    simp only [hne, Bool.false_eq_true, if_false]
  · intro hlen
    unfold fallbackThread
    rw [if_neg (by omega : ¬1 < (chainOf edges raws root).length)]
theorem claim_C3_witness :
    (∀ i t, (i, t) ∈ chainOf [("2", "1")]
        [{ id := "1", text := "a", created_at := some (.text "Wed Oct 10 20:19:24 +0000 2018") },
         { id := "2", text := "b", created_at := some (.text "Thu Oct 11 20:19:24 +0000 2018") }] "1" ↔
      (tweetLookup
          [{ id := "1", text := "a", created_at := some (.text "Wed Oct 10 20:19:24 +0000 2018") },
           { id := "2", text := "b", created_at := some (.text "Thu Oct 11 20:19:24 +0000 2018") }] i
            = some t ∧
        (i = "1" ∨ ∃ p, lookupEdge [("2", "1")] i = some p ∧
          childChainRoot [("2", "1")] i p = "1"))) ∧
    (2 ≤ (chainOf [("2", "1")]
        [{ id := "1", text := "a", created_at := some (.text "Wed Oct 10 20:19:24 +0000 2018") },
         { id := "2", text := "b", created_at := some (.text "Thu Oct 11 20:19:24 +0000 2018") }]
          "1").length →
      ∃ ms : List (TweetId × RawTweet),
        ms.Perm (chainOf [("2", "1")]
          [{ id := "1", text := "a", created_at := some (.text "Wed Oct 10 20:19:24 +0000 2018") },
           { id := "2", text := "b", created_at := some (.text "Thu Oct 11 20:19:24 +0000 2018") }]
            "1") ∧
        ms.Pairwise (fun a b => strLe (fallbackKey a.2) (fallbackKey b.2) = true) ∧
        fallbackThread [("2", "1")]
          [{ id := "1", text := "a", created_at := some (.text "Wed Oct 10 20:19:24 +0000 2018") },
           { id := "2", text := "b", created_at := some (.text "Thu Oct 11 20:19:24 +0000 2018") }]
          "1" [] 0 = ([] ++ [("1", ms.map (fun x => x.2.text))], 0 + 1)) ∧
    ((chainOf [("2", "1")]
        [{ id := "1", text := "a", created_at := some (.text "Wed Oct 10 20:19:24 +0000 2018") },
         { id := "2", text := "b", created_at := some (.text "Thu Oct 11 20:19:24 +0000 2018") }]
          "1").length ≤ 1 →
      fallbackThread [("2", "1")]
        [{ id := "1", text := "a", created_at := some (.text "Wed Oct 10 20:19:24 +0000 2018") },
         { id := "2", text := "b", created_at := some (.text "Thu Oct 11 20:19:24 +0000 2018") }]
        "1" [] 0 = ([], 0)) :=
  claim_C3_amended [("2", "1")]
    [{ id := "1", text := "a", created_at := some (.text "Wed Oct 10 20:19:24 +0000 2018") },
     { id := "2", text := "b", created_at := some (.text "Thu Oct 11 20:19:24 +0000 2018") }]
    "1" [] 0 (by decide)

/-! ## Claims C7 and C2: the merge rebuild -/

theorem lookupTexts_eq_none_iff (tt : List (TweetId × List String)) (r : TweetId) :
    lookupTexts tt r = none ↔ r ∉ tt.map Prod.fst := by
  unfold lookupTexts
  rw [Option.map_eq_none', List.find?_eq_none]
  constructor
  · intro h hc
    rcases List.mem_map.mp hc with ⟨e, he, her⟩
    exact absurd (by simpa using her) (h e he)
  · intro h e he
    simp only [beq_iff_eq]
    intro her
    exact h (her ▸ List.mem_map_of_mem Prod.fst he)

theorem lookupTexts_isSome_of_mem {tt : List (TweetId × List String)} {r : TweetId}
    (h : r ∈ tt.map Prod.fst) : ∃ ts, lookupTexts tt r = some ts := by
  cases hme : lookupTexts tt r with
  | none => exact absurd h ((lookupTexts_eq_none_iff tt r).mp hme)
  | some ts => exact ⟨ts, rfl⟩

theorem resolveRootFrom_eq_self_of_none {edges : List (TweetId × TweetId)} {i : TweetId}
    (hl : lookupEdge edges i = none) : resolveRootFrom edges i = i := by
  cases hn : edges.length with
  | zero => unfold resolveRootFrom walkFuel; rw [hn]; rfl
  | succ k => unfold resolveRootFrom walkFuel; rw [hn, walkAux_succ_none hl]

theorem rebuildRoot_eq_childRoot {edges : List (TweetId × TweetId)} {c p : TweetId}
    (hl : lookupEdge edges c = some p) :
    resolveRootFrom edges c = childChainRoot edges c p := by
  have hne : edges ≠ [] := by
    intro h; subst h; simp [lookupEdge] at hl
  have hlen : 0 < edges.length := List.length_pos.mpr hne
  obtain ⟨k, hk⟩ : ∃ k, edges.length = k + 1 := ⟨edges.length - 1, by omega⟩
  have hfk : freshKeys edges [c] ≤ k := by
    have h1 := freshKeys_cons_lt hl (List.not_mem_nil c)
    have h2 := freshKeys_le_length edges []
    omega
  unfold resolveRootFrom childChainRoot walkFuel
  rw [hk, walkAux_succ_go hl (List.not_mem_nil c), walkAux_fuel_succ edges k p [c] hfk]

theorem mem_foldl_append {α β : Type} (f : β → List α) :
    ∀ (rs : List β) (acc : List α) (x : α),
      x ∈ rs.foldl (fun a r => a ++ f r) acc ↔ x ∈ acc ∨ ∃ r ∈ rs, x ∈ f r := by
  intro rs
  induction rs with
  | nil => intro acc x; simp
  | cons r rest ih =>
    intro acc x
    rw [List.foldl_cons, ih, List.mem_append, List.exists_mem_cons_iff]
    tauto

theorem mem_mergedIds_iff {edges : List (TweetId × TweetId)} {tt : List (TweetId × List String)}
    (hN : (edges.map Prod.fst).Nodup)
    (hfix : ∀ r ∈ tt.map Prod.fst, resolveRootFrom edges r = r) (i : TweetId) :
    i ∈ mergedIdsOf edges tt ↔ resolveRootFrom edges i ∈ tt.map Prod.fst := by
  unfold mergedIdsOf
  rw [mem_foldl_append]
  simp only [List.not_mem_nil, false_or]
  constructor
  · rintro ⟨r, hr, hi⟩
    unfold chainIdsOf at hi
    rcases List.mem_cons.mp hi with h | h
    · subst h; rw [hfix i hr]; exact hr
    · rcases List.mem_map.mp h with ⟨e, he, hei⟩
      have hef := List.mem_filter.mp he
      have hc : childChainRoot edges e.1 e.2 = r := by simpa using hef.2
      have hlk : lookupEdge edges i = some e.2 := by
        refine (lookupEdge_eq_some_iff hN i e.2).mpr ?_
        have : e = (i, e.2) := by rw [← hei]
        rw [← this]; exact hef.1
      rw [rebuildRoot_eq_childRoot hlk]
      rw [show childChainRoot edges i e.2 = r from hei ▸ hc]
      exact hr
  · intro h
    refine ⟨resolveRootFrom edges i, h, ?_⟩
    unfold chainIdsOf
    cases hl : lookupEdge edges i with
    | none =>
      rw [resolveRootFrom_eq_self_of_none hl]
      exact List.mem_cons_self _ _
    | some p =>
      refine List.mem_cons_of_mem _ (List.mem_map.mpr ⟨(i, p), List.mem_filter.mpr ⟨?_, ?_⟩, rfl⟩)
      · exact (lookupEdge_eq_some_iff hN i p).mp hl
      · simpa using (rebuildRoot_eq_childRoot hl).symm

theorem mergerSpecAux_cons (edges : List (TweetId × TweetId)) (tt : List (TweetId × List String))
    (username : String) (used : List TweetId) (d : TweetData) (rest : List TweetData) :
    mergerSpecAux edges tt username used (d :: rest) =
      match lookupTexts tt (resolveRootFrom edges d.url.statusId) with
      | some texts =>
        if resolveRootFrom edges d.url.statusId ∈ used then
          mergerSpecAux edges tt username used rest
        else
          mergedPost username (resolveRootFrom edges d.url.statusId) texts d ::
            mergerSpecAux edges tt username
              (resolveRootFrom edges d.url.statusId :: used) rest
      | none => d :: mergerSpecAux edges tt username used rest := by
  cases hme : lookupTexts tt (resolveRootFrom edges d.url.statusId) with
  | none =>
    unfold mergerSpecAux
    rw [List.enum_cons, List.filterMap_cons, List.enumFrom_eq_map_enum, List.filterMap_map]
    simp only [hme, List.take_zero, List.all_nil, if_true]
    congr 1
    apply List.filterMap_congr
    rintro ⟨i, q⟩ hq
    simp only [Function.comp, Prod.map, id, List.take_succ_cons, List.all_cons]
    cases hme' : lookupTexts tt (resolveRootFrom edges q.url.statusId) with
    | none => rfl
    | some ts =>
      by_cases hu : resolveRootFrom edges q.url.statusId ∈ used
      · simp [hu]
      · have hrr : resolveRootFrom edges d.url.statusId ≠ resolveRootFrom edges q.url.statusId := by
          intro h; rw [h, hme'] at hme; cases hme
        have hbe : (resolveRootFrom edges d.url.statusId ==
            resolveRootFrom edges q.url.statusId) = false := beq_eq_false_iff_ne.mpr hrr
        simp [hu, hbe]
  | some texts =>
    by_cases hu : resolveRootFrom edges d.url.statusId ∈ used
    · unfold mergerSpecAux
      rw [List.enum_cons, List.filterMap_cons, List.enumFrom_eq_map_enum, List.filterMap_map]
      simp only [hme, if_pos hu]
      apply List.filterMap_congr
      rintro ⟨i, q⟩ hq
      simp only [Function.comp, Prod.map, id, List.take_succ_cons, List.all_cons]
      cases hme' : lookupTexts tt (resolveRootFrom edges q.url.statusId) with
      | none => rfl
      | some ts =>
        by_cases hu' : resolveRootFrom edges q.url.statusId ∈ used
        · simp [hu']
        · have hrr : resolveRootFrom edges d.url.statusId ≠
              resolveRootFrom edges q.url.statusId := by
            intro h; rw [← h] at hu'; exact hu' hu
          have hbe : (resolveRootFrom edges d.url.statusId ==
              resolveRootFrom edges q.url.statusId) = false := beq_eq_false_iff_ne.mpr hrr
          simp [hu', hbe]
    · unfold mergerSpecAux
      rw [List.enum_cons, List.filterMap_cons, List.enumFrom_eq_map_enum, List.filterMap_map]
      simp only [hme, if_neg hu, List.take_zero, List.all_nil, if_true]
      congr 1
      apply List.filterMap_congr
      rintro ⟨i, q⟩ hq
      simp only [Function.comp, Prod.map, id, List.take_succ_cons, List.all_cons]
      cases hme' : lookupTexts tt (resolveRootFrom edges q.url.statusId) with
      | none => rfl
      | some ts =>
        by_cases hu' : resolveRootFrom edges q.url.statusId ∈ used
        · have hu2 : resolveRootFrom edges q.url.statusId ∈
              resolveRootFrom edges d.url.statusId :: used := List.mem_cons_of_mem _ hu'
          simp [hu', hu2]
        · by_cases heq : resolveRootFrom edges q.url.statusId =
              resolveRootFrom edges d.url.statusId
          · have hu2 : resolveRootFrom edges q.url.statusId ∈
                resolveRootFrom edges d.url.statusId :: used := by
              rw [heq]; exact List.mem_cons_self _ _
            have hbe : (resolveRootFrom edges d.url.statusId ==
                resolveRootFrom edges q.url.statusId) = true := by
              simpa using heq.symm
            simp [hu', hu2, hbe]
          · have hu2 : resolveRootFrom edges q.url.statusId ∉
                resolveRootFrom edges d.url.statusId :: used := by
              intro h
              rcases List.mem_cons.mp h with h1 | h1
              · exact heq h1
              · exact hu' h1
            have hbe : (resolveRootFrom edges d.url.statusId ==
                resolveRootFrom edges q.url.statusId) = false :=
              beq_eq_false_iff_ne.mpr (fun h => heq h.symm)
            simp [hu', hu2, hbe]

theorem rebuild_eq_mergerSpecAux (edges : List (TweetId × TweetId))
    (tt : List (TweetId × List String)) (username : String)
    (hN : (edges.map Prod.fst).Nodup)
    (hfix : ∀ r ∈ tt.map Prod.fst, resolveRootFrom edges r = r) :
    ∀ (results : List TweetData) (used : List TweetId),
      rebuildResults edges tt username results used =
        mergerSpecAux edges tt username used results := by
  intro results
  induction results with
  | nil => intro used; rfl
  | cons d rest ih =>
    intro used
    rw [mergerSpecAux_cons]
    by_cases hmem : d.url.statusId ∈ mergedIdsOf edges tt
    · have hkey : resolveRootFrom edges d.url.statusId ∈ tt.map Prod.fst :=
        (mem_mergedIds_iff hN hfix _).mp hmem
      obtain ⟨texts, htx⟩ := lookupTexts_isSome_of_mem hkey
      by_cases hu : resolveRootFrom edges d.url.statusId ∈ used
      · simp only [rebuildResults, if_pos hmem, htx, if_pos hu]
        exact ih used
      · simp only [rebuildResults, if_pos hmem, htx, if_neg hu]
        rw [ih (resolveRootFrom edges d.url.statusId :: used)]
    · have hkey : resolveRootFrom edges d.url.statusId ∉ tt.map Prod.fst := fun h =>
        hmem ((mem_mergedIds_iff hN hfix _).mpr h)
      have htx : lookupTexts tt (resolveRootFrom edges d.url.statusId) = none :=
        (lookupTexts_eq_none_iff _ _).mpr hkey
      simp only [rebuildResults, if_neg hmem, htx]
      rw [ih used]

/-- C7: the rebuild loop coincides with its declarative description: the
record at each position is replaced by the synthetic merged record (joined
texts in recorded order, thread marker set, member count recorded, url
rewritten to the account and chain root) exactly when its resolved root is
hydrated and no earlier record resolves to the same root, is dropped when
an earlier one does, and passes through unchanged when its root is not
hydrated — so relative order of untouched records is preserved.  The two
hypotheses state that the edge map has dict-unique keys and that every
hydrated root is a fixed point of the resolver, both true of the states the
source builds. -/
theorem claim_C7_merger (edges : List (TweetId × TweetId)) (tt : List (TweetId × List String))
    (username : String) (results : List TweetData)
    (hN : (edges.map Prod.fst).Nodup)
    (hfix : ∀ r ∈ tt.map Prod.fst, resolveRootFrom edges r = r) :
    rebuildResults edges tt username results [] = mergerSpec edges tt username results := by
  unfold mergerSpec
  exact rebuild_eq_mergerSpecAux edges tt username hN hfix results []

theorem claim_C7_witness :
    rebuildResults [("2", "1")] [("1", ["x", "y", "z"])] "alice"
      [{ username := "alice", text := "a", created_at := "", likes := 0, retweets := 0,
         url := ⟨"alice", "1"⟩ },
       { username := "alice", text := "b", created_at := "", likes := 0, retweets := 0,
         url := ⟨"alice", "2"⟩ }] [] =
    mergerSpec [("2", "1")] [("1", ["x", "y", "z"])] "alice"
      [{ username := "alice", text := "a", created_at := "", likes := 0, retweets := 0,
         url := ⟨"alice", "1"⟩ },
       { username := "alice", text := "b", created_at := "", likes := 0, retweets := 0,
         url := ⟨"alice", "2"⟩ }] :=
  claim_C7_merger [("2", "1")] [("1", ["x", "y", "z"])] "alice"
    [{ username := "alice", text := "a", created_at := "", likes := 0, retweets := 0,
       url := ⟨"alice", "1"⟩ },
     { username := "alice", text := "b", created_at := "", likes := 0, retweets := 0,
       url := ⟨"alice", "2"⟩ }] (by decide) (by decide)

theorem rebuild_count_zero (edges : List (TweetId × TweetId)) (tt : List (TweetId × List String))
    (username : String) (r : TweetId) :
    ∀ (results : List TweetData) (used : List TweetId), r ∈ used →
      (∀ d ∈ results, d.is_thread = false) →
      ((rebuildResults edges tt username results used).filter
        (fun d => d.is_thread && (d.url.statusId == r))).length = 0 := by
  intro results
  induction results with
  | nil => intro used _ _; rfl
  | cons d rest ih =>
    intro used hu h0
    have h0r : ∀ x ∈ rest, x.is_thread = false := fun x hx => h0 x (List.mem_cons_of_mem _ hx)
    by_cases hmem : d.url.statusId ∈ mergedIdsOf edges tt
    · cases htx : lookupTexts tt (resolveRootFrom edges d.url.statusId) with
      | none =>
        simp only [rebuildResults, if_pos hmem, htx]
        exact ih used hu h0r
      | some texts =>
        by_cases hu2 : resolveRootFrom edges d.url.statusId ∈ used
        · simp only [rebuildResults, if_pos hmem, htx, if_pos hu2]
          exact ih used hu h0r
        · have hrr : resolveRootFrom edges d.url.statusId ≠ r := fun h => hu2 (h ▸ hu)
          have hpred : ((mergedPost username (resolveRootFrom edges d.url.statusId) texts d).is_thread
              && ((mergedPost username (resolveRootFrom edges d.url.statusId) texts d).url.statusId
                == r)) = false := by
            simp [mergedPost, beq_eq_false_iff_ne.mpr hrr]
          simp only [rebuildResults, if_pos hmem, htx, if_neg hu2, List.filter_cons, hpred,
            Bool.false_eq_true, if_false]
          exact ih (resolveRootFrom edges d.url.statusId :: used) (List.mem_cons_of_mem _ hu) h0r
    · have hpred : (d.is_thread && (d.url.statusId == r)) = false := by
        simp [h0 d (List.mem_cons_self _ _)]
      simp only [rebuildResults, if_neg hmem, List.filter_cons, hpred,
        Bool.false_eq_true, if_false]
      exact ih used hu h0r

theorem rebuild_count_one (edges : List (TweetId × TweetId)) (tt : List (TweetId × List String))
    (username : String) (r : TweetId) (texts : List String)
    (hN : (edges.map Prod.fst).Nodup)
    (hfix : ∀ x ∈ tt.map Prod.fst, resolveRootFrom edges x = x)
    (htx : lookupTexts tt r = some texts) :
    ∀ (results : List TweetData) (used : List TweetId), r ∉ used →
      (∀ d ∈ results, d.is_thread = false) →
      (∃ d ∈ results, resolveRootFrom edges d.url.statusId = r) →
      ((rebuildResults edges tt username results used).filter
        (fun d => d.is_thread && (d.url.statusId == r))).length = 1 := by
  intro results
  induction results with
  | nil => rintro used _ _ ⟨d, hd, _⟩; cases hd
  | cons d rest ih =>
    intro used hu h0 hex
    have h0r : ∀ x ∈ rest, x.is_thread = false := fun x hx => h0 x (List.mem_cons_of_mem _ hx)
    by_cases hd : resolveRootFrom edges d.url.statusId = r
    · have hkey : r ∈ tt.map Prod.fst := by
        by_contra h
        rw [(lookupTexts_eq_none_iff tt r).mpr h] at htx
        cases htx
      have hmem : d.url.statusId ∈ mergedIdsOf edges tt := by
        refine (mem_mergedIds_iff hN hfix _).mpr ?_
        rw [hd]; exact hkey
      have hpred : ((mergedPost username r texts d).is_thread
          && ((mergedPost username r texts d).url.statusId == r)) = true := by
        simp [mergedPost]
      simp only [rebuildResults, if_pos hmem, hd, htx, if_neg hu, List.filter_cons, hpred,
        if_true, List.length_cons]
      rw [rebuild_count_zero edges tt username r rest (r :: used)
        (List.mem_cons_self _ _) h0r]
    · have hex' : ∃ x ∈ rest, resolveRootFrom edges x.url.statusId = r := by
        rcases hex with ⟨x, hx, hxr⟩
        rcases List.mem_cons.mp hx with h1 | h1
        · subst h1; exact absurd hxr hd
        · exact ⟨x, h1, hxr⟩
      by_cases hmem : d.url.statusId ∈ mergedIdsOf edges tt
      · cases htx' : lookupTexts tt (resolveRootFrom edges d.url.statusId) with
        | none =>
          simp only [rebuildResults, if_pos hmem, htx']
          exact ih used hu h0r hex'
        | some ts' =>
          by_cases hu2 : resolveRootFrom edges d.url.statusId ∈ used
          · simp only [rebuildResults, if_pos hmem, htx', if_pos hu2]
            exact ih used hu h0r hex'
          · have hpred : ((mergedPost username (resolveRootFrom edges d.url.statusId) ts' d).is_thread
                && ((mergedPost username (resolveRootFrom edges d.url.statusId) ts' d).url.statusId
                  == r)) = false := by
              simp [mergedPost, beq_eq_false_iff_ne.mpr hd]
            simp only [rebuildResults, if_pos hmem, htx', if_neg hu2, List.filter_cons, hpred,
              Bool.false_eq_true, if_false]
            refine ih (resolveRootFrom edges d.url.statusId :: used) ?_ h0r hex'
            intro h
            rcases List.mem_cons.mp h with h1 | h1
            · exact hd h1.symm
            · exact hu h1
      · have hpred : (d.is_thread && (d.url.statusId == r)) = false := by
          simp [h0 d (List.mem_cons_self _ _)]
        simp only [rebuildResults, if_neg hmem, List.filter_cons, hpred,
          Bool.false_eq_true, if_false]
        exact ih used hu h0r hex'

theorem snd_mem_of_mem_enumFrom {α : Type} :
    ∀ (l : List α) (n i : Nat) (q : α), (i, q) ∈ l.enumFrom n → q ∈ l := by
  intro l
  induction l with
  | nil => intro n i q h; cases h
  | cons a rest ih =>
    intro n i q h
    rw [List.enumFrom_cons] at h
    rcases List.mem_cons.mp h with h1 | h1
    · have hq : q = a := congrArg Prod.snd h1
      rw [hq]; exact List.mem_cons_self _ _
    · exact List.mem_cons_of_mem _ (ih (n + 1) i q h1)

/-- C2 counterexample: a batch with a two-post chain (a root and one
self-reply) whose remote hydration succeeds with three member texts.  The
merged output holds exactly one merged record, but its recorded length is
3 — the number of remotely returned texts — not the batch member count 2,
refuting the claim that `thread_length` equals the number of chain member
posts in the fetch batch. -/
theorem claim_C2_counterexample :
    (mergeThreadsModel (fun _ => .ok ["x", "y", "z"]) 3 5 "alice"
      (filterBatch "alice" 0
        [{ id := "1", text := "a", userId := "u" },
         { id := "2", text := "b", userId := "u", inReplyTo := some "1",
           legacyReplyToUserIdStr := some "u" }]).1
      [{ id := "1", text := "a", userId := "u" },
       { id := "2", text := "b", userId := "u", inReplyTo := some "1",
         legacyReplyToUserIdStr := some "u" }]).1 =
      [{ username := "alice", text := "x\n---\ny\n---\nz", created_at := "", likes := 0,
         retweets := 0, url := ⟨"alice", "1"⟩, is_thread := true, thread_length := some 3 }] ∧
    (chainIdsOf (replyEdges
      [{ id := "1", text := "a", userId := "u" },
       { id := "2", text := "b", userId := "u", inReplyTo := some "1",
         legacyReplyToUserIdStr := some "u" }]) "1").length = 2 ∧
    (∀ d ∈ (mergeThreadsModel (fun _ => .ok ["x", "y", "z"]) 3 5 "alice"
      (filterBatch "alice" 0
        [{ id := "1", text := "a", userId := "u" },
         { id := "2", text := "b", userId := "u", inReplyTo := some "1",
           legacyReplyToUserIdStr := some "u" }]).1
      [{ id := "1", text := "a", userId := "u" },
       { id := "2", text := "b", userId := "u", inReplyTo := some "1",
         legacyReplyToUserIdStr := some "u" }]).1,
      d.thread_length ≠ some 2) := by
  exact ⟨by decide, by decide, by decide⟩

/-- C2 as amended: for a hydrated chain root whose recorded text list has
M entries, provided at least one record of the filtered batch results
resolves to this root, the merged output contains exactly one merged record
for the chain, that record carries `thread_length = M` (the number of
recorded texts — equal to the batch member count only when the local
fallback produced them), the joined text and the rewritten url, and every
original record resolving to a hydrated root is absent from the output. -/
theorem claim_C2_amended (edges : List (TweetId × TweetId)) (tt : List (TweetId × List String))
    (username : String) (results : List TweetData) (r : TweetId) (texts : List String)
    (hN : (edges.map Prod.fst).Nodup)
    (hfix : ∀ x ∈ tt.map Prod.fst, resolveRootFrom edges x = x)
    (h0 : ∀ d ∈ results, d.is_thread = false)
    (htx : lookupTexts tt r = some texts)
    (hmem : ∃ d ∈ results, resolveRootFrom edges d.url.statusId = r) :
    ((rebuildResults edges tt username results []).filter
        (fun d => d.is_thread && (d.url.statusId == r))).length = 1 ∧
    (∀ d ∈ rebuildResults edges tt username results [],
      d.is_thread = true → d.url.statusId = r →
        d.thread_length = some texts.length ∧
        d.text = String.intercalate threadSep texts ∧
        d.url = ⟨username, r⟩) ∧
    (∀ d ∈ results, resolveRootFrom edges d.url.statusId ∈ tt.map Prod.fst →
      d ∉ rebuildResults edges tt username results []) := by
  refine ⟨rebuild_count_one edges tt username r texts hN hfix htx results []
    (List.not_mem_nil r) h0 hmem, ?_, ?_⟩
  · intro d hd hth hsid
    rw [rebuild_eq_mergerSpecAux edges tt username hN hfix results []] at hd
    unfold mergerSpecAux at hd
    rcases List.mem_filterMap.mp hd with ⟨⟨i, q⟩, hip, hfa⟩
    have hq : q ∈ results := snd_mem_of_mem_enumFrom results 0 i q hip
    cases hme' : lookupTexts tt (resolveRootFrom edges q.url.statusId) with
    | none =>
      simp only [hme'] at hfa
      have hdq : q = d := by simpa using hfa
      rw [← hdq] at hth
      rw [h0 q hq] at hth
      cases hth
    | some ts' =>
      simp only [hme', List.not_mem_nil, if_false] at hfa
      split_ifs at hfa with h1
      · have hdm : mergedPost username (resolveRootFrom edges q.url.statusId) ts' q = d := by
          simpa using hfa
        have hsr : resolveRootFrom edges q.url.statusId = r := by
          rw [← hdm] at hsid
          simpa [mergedPost] using hsid
        rw [hsr, htx] at hme'
        have hts : ts' = texts := by simpa using hme'.symm
        rw [← hdm, hsr, hts]
        refine ⟨rfl, rfl, rfl⟩
  · intro d hd hkey hcon
    rw [rebuild_eq_mergerSpecAux edges tt username hN hfix results []] at hcon
    unfold mergerSpecAux at hcon
    rcases List.mem_filterMap.mp hcon with ⟨⟨i, q⟩, hip, hfa⟩
    cases hme' : lookupTexts tt (resolveRootFrom edges q.url.statusId) with
    | none =>
      simp only [hme'] at hfa
      have hdq : q = d := by simpa using hfa
      rw [hdq] at hme'
      exact absurd hkey ((lookupTexts_eq_none_iff _ _).mp hme')
    | some ts' =>
      simp only [hme', List.not_mem_nil, if_false] at hfa
      split_ifs at hfa with h1
      · have hdm : mergedPost username (resolveRootFrom edges q.url.statusId) ts' q = d := by
          simpa using hfa
        have : d.is_thread = true := by rw [← hdm]; rfl
        rw [h0 d hd] at this
        cases this

theorem claim_C2_witness :
    ((rebuildResults [("2", "1")] [("1", ["x", "y", "z"])] "alice"
        [{ username := "alice", text := "a", created_at := "", likes := 0, retweets := 0,
           url := ⟨"alice", "1"⟩ },
         { username := "alice", text := "b", created_at := "", likes := 0, retweets := 0,
           url := ⟨"alice", "2"⟩ }] []).filter
        (fun d => d.is_thread && (d.url.statusId == "1"))).length = 1 ∧
    (∀ d ∈ rebuildResults [("2", "1")] [("1", ["x", "y", "z"])] "alice"
        [{ username := "alice", text := "a", created_at := "", likes := 0, retweets := 0,
           url := ⟨"alice", "1"⟩ },
         { username := "alice", text := "b", created_at := "", likes := 0, retweets := 0,
           url := ⟨"alice", "2"⟩ }] [],
      d.is_thread = true → d.url.statusId = "1" →
        d.thread_length = some (["x", "y", "z"] : List String).length ∧
        d.text = String.intercalate threadSep ["x", "y", "z"] ∧
        d.url = ⟨"alice", "1"⟩) ∧
    (∀ d ∈ [{ username := "alice", text := "a", created_at := "", likes := 0, retweets := 0,
              url := ⟨"alice", "1"⟩ },
            { username := "alice", text := "b", created_at := "", likes := 0, retweets := 0,
              url := (⟨"alice", "2"⟩ : Url) }],
      resolveRootFrom [("2", "1")] d.url.statusId ∈
          ([("1", ["x", "y", "z"])] : List (TweetId × List String)).map Prod.fst →
      d ∉ rebuildResults [("2", "1")] [("1", ["x", "y", "z"])] "alice"
        [{ username := "alice", text := "a", created_at := "", likes := 0, retweets := 0,
           url := ⟨"alice", "1"⟩ },
         { username := "alice", text := "b", created_at := "", likes := 0, retweets := 0,
           url := ⟨"alice", "2"⟩ }] []) :=
  claim_C2_amended [("2", "1")] [("1", ["x", "y", "z"])] "alice"
    [{ username := "alice", text := "a", created_at := "", likes := 0, retweets := 0,
       url := ⟨"alice", "1"⟩ },
     { username := "alice", text := "b", created_at := "", likes := 0, retweets := 0,
       url := ⟨"alice", "2"⟩ }] "1" ["x", "y", "z"]
    (by decide) (by decide) (by decide) (by decide) (by decide)

/-! ## Claims C5 and C6: retry with backoff, and failure recording -/

theorem processSuccess_stats (cfg : FetchConfig) (oracle : TweetId → FetchOutcome)
    (username : String) (now : Int) (raws : List RawTweet) (st : Stats) :
    (processSuccess cfg oracle username now raws st).2.successful_accounts =
      st.successful_accounts + 1 ∧
    (processSuccess cfg oracle username now raws st).2.errors = st.errors ∧
    (processSuccess cfg oracle username now raws st).2.failed_accounts = st.failed_accounts := by
  by_cases h1 : 0 < (filterBatch username (now - (cfg.max_tweet_age_hours : Int) * 3600) raws).2 <;>
    by_cases h2 : cfg.enable_thread_merging ∧
      ¬(filterBatch username (now - (cfg.max_tweet_age_hours : Int) * 3600) raws).1.isEmpty <;>
    simp [processSuccess, h1, h2]

theorem backoff_shift (j m : Nat) :
    [(j + 1) * 30] ++ (List.range m).map (fun i => (j + 1 + i + 1) * 30)
      = (List.range (m + 1)).map (fun i => (j + i + 1) * 30) := by
  rw [List.range_succ_eq_map, List.map_cons, List.map_map, List.singleton_append]
  refine congrArg₂ List.cons (by omega) ?_
  apply List.map_congr_left
  intro i _
  show (j + 1 + i + 1) * 30 = (j + (i + 1) + 1) * 30
  omega

set_option maxHeartbeats 1600000 in
theorem getUserTweetsAux_success (cfg : FetchConfig) (oracle : TweetId → FetchOutcome)
    (username : String) (now : Int) (attemptO : Nat → AttemptOutcome) (raws : List RawTweet) :
    ∀ (m j : Nat) (st : Stats) (sleeps : List Nat),
      j + m ≤ cfg.max_retries →
      (∀ i, j ≤ i → i < j + m → ∃ msg, attemptO i = .failed true msg) →
      attemptO (j + m) = .ok raws →
      cfg.retry_on_rate_limit = true →
      getUserTweetsAux cfg oracle username now attemptO j (cfg.max_retries + 1 - j) st sleeps =
        ((processSuccess cfg oracle username now raws st).1,
         (processSuccess cfg oracle username now raws st).2,
         sleeps ++ (List.range m).map (fun i => (j + i + 1) * 30)) := by
  intro m
  induction m with
  | zero =>
    intro j st sleeps hle hrl hok hflag
    obtain ⟨f, hf⟩ : ∃ f, cfg.max_retries + 1 - j = f + 1 := ⟨cfg.max_retries - j, by omega⟩
    rw [hf]
    rw [show j + 0 = j from rfl] at hok
    simp only [getUserTweetsAux, hok]
    simp
  | succ m ih =>
    intro j st sleeps hle hrl hok hflag
    obtain ⟨f, hf⟩ : ∃ f, cfg.max_retries + 1 - j = f + 1 := ⟨cfg.max_retries - j, by omega⟩
    rw [hf]
    obtain ⟨msg, hmsg⟩ := hrl j (le_refl j) (by omega)
    simp only [getUserTweetsAux, hmsg]
    rw [if_pos (by exact ⟨by trivial, hflag, by omega⟩)]
    have hf2 : f = cfg.max_retries + 1 - (j + 1) := by omega
    have hlist : (sleeps ++ [(j + 1) * 30]) ++ (List.range m).map (fun i => (j + 1 + i + 1) * 30)
        = sleeps ++ (List.range (m + 1)).map (fun i => (j + i + 1) * 30) := by
      rw [List.append_assoc]
      exact congrArg (fun l => sleeps ++ l) (backoff_shift j m)
    rw [hf2, ih (j + 1) st (sleeps ++ [(j + 1) * 30]) (by omega)
      (fun i h1 h2 => hrl i (by omega) (by omega))
      (by rw [show j + 1 + m = j + (m + 1) from by omega]; exact hok) hflag, hlist]

set_option maxHeartbeats 1600000 in
theorem getUserTweetsAux_failure (cfg : FetchConfig) (oracle : TweetId → FetchOutcome)
    (username : String) (now : Int) (attemptO : Nat → AttemptOutcome) (b : Bool) (msg : String) :
    ∀ (m j : Nat) (st : Stats) (sleeps : List Nat),
      j + m ≤ cfg.max_retries →
      (∀ i, j ≤ i → i < j + m → ∃ ms, attemptO i = .failed true ms) →
      attemptO (j + m) = .failed b msg →
      cfg.retry_on_rate_limit = true →
      (b = false ∨ j + m = cfg.max_retries) →
      getUserTweetsAux cfg oracle username now attemptO j (cfg.max_retries + 1 - j) st sleeps =
        ([], { st with failed_accounts := st.failed_accounts + 1,
                       errors := st.errors ++ ["@" ++ username ++ ": " ++ msg] },
         sleeps ++ (List.range m).map (fun i => (j + i + 1) * 30)) := by
  intro m
  induction m with
  | zero =>
    intro j st sleeps hle hrl hfail hflag hterm
    obtain ⟨f, hf⟩ : ∃ f, cfg.max_retries + 1 - j = f + 1 := ⟨cfg.max_retries - j, by omega⟩
    rw [hf]
    rw [show j + 0 = j from rfl] at hfail hterm
    simp only [getUserTweetsAux, hfail]
    rw [if_neg ?_]
    · simp
    · rintro ⟨hb, _, hlt⟩
      rcases hterm with h | h
      · rw [h] at hb; cases hb
      · omega
  | succ m ih =>
    intro j st sleeps hle hrl hfail hflag hterm
    obtain ⟨f, hf⟩ : ∃ f, cfg.max_retries + 1 - j = f + 1 := ⟨cfg.max_retries - j, by omega⟩
    rw [hf]
    obtain ⟨ms, hms⟩ := hrl j (le_refl j) (by omega)
    simp only [getUserTweetsAux, hms]
    rw [if_pos (by exact ⟨by trivial, hflag, by omega⟩)]
    have hf2 : f = cfg.max_retries + 1 - (j + 1) := by omega
    have hlist : (sleeps ++ [(j + 1) * 30]) ++ (List.range m).map (fun i => (j + 1 + i + 1) * 30)
        = sleeps ++ (List.range (m + 1)).map (fun i => (j + i + 1) * 30) := by
      rw [List.append_assoc]
      exact congrArg (fun l => sleeps ++ l) (backoff_shift j m)
    rw [hf2, ih (j + 1) st (sleeps ++ [(j + 1) * 30]) (by omega)
      (fun i h1 h2 => hrl i (by omega) (by omega))
      (by rw [show j + 1 + m = j + (m + 1) from by omega]; exact hfail) hflag
      (by rcases hterm with h | h
          · exact Or.inl h
          · right; omega), hlist]

/-- C5: with retrying enabled, when the first `k` attempts of a per-account
fetch fail as rate-limit errors (`k` at most `max_retries`) and attempt `k`
succeeds, the retrier performs exactly the backoff sleeps `(i+1) * 30` for
`i = 0 .. k-1` — growing 30, 60, 90, … — then the success path increments
`successful_accounts` by one and leaves `errors` and `failed_accounts`
untouched. -/
theorem claim_C5_backoff (cfg : FetchConfig) (oracle : TweetId → FetchOutcome)
    (username : String) (now : Int) (attemptO : Nat → AttemptOutcome) (st : Stats)
    (k : Nat) (raws : List RawTweet)
    (hflag : cfg.retry_on_rate_limit = true) (hk : k ≤ cfg.max_retries)
    (hrl : ∀ i, i < k → ∃ msg, attemptO i = .failed true msg)
    (hok : attemptO k = .ok raws) :
    (getUserTweets cfg oracle username now attemptO st).2.2 =
      (List.range k).map (fun i => (i + 1) * 30) ∧
    (getUserTweets cfg oracle username now attemptO st).2.1.successful_accounts =
      st.successful_accounts + 1 ∧
    (getUserTweets cfg oracle username now attemptO st).2.1.errors = st.errors ∧
    (getUserTweets cfg oracle username now attemptO st).2.1.failed_accounts =
      st.failed_accounts := by
  have h := getUserTweetsAux_success cfg oracle username now attemptO raws k 0 st []
    (by omega) (fun i _ h2 => hrl i (by omega)) (by simpa using hok) hflag
  unfold getUserTweets
  rw [show cfg.max_retries + 1 = cfg.max_retries + 1 - 0 from rfl, h]
  have hs := processSuccess_stats cfg oracle username now raws st
  refine ⟨by simp, hs.1, hs.2.1, hs.2.2⟩

theorem claim_C5_witness :
    (getUserTweets {} (fun _ => .err) "bob" 0
      (fun n => if n = 0 then .failed true "429" else if n = 1 then .failed true "Rate limit"
                else .ok []) {}).2.2 = [30, 60] ∧
    (getUserTweets {} (fun _ => .err) "bob" 0
      (fun n => if n = 0 then .failed true "429" else if n = 1 then .failed true "Rate limit"
                else .ok []) {}).2.1.successful_accounts = 1 ∧
    (getUserTweets {} (fun _ => .err) "bob" 0
      (fun n => if n = 0 then .failed true "429" else if n = 1 then .failed true "Rate limit"
                else .ok []) {}).2.1.errors = [] := by
  have h := claim_C5_backoff {} (fun _ => .err) "bob" 0
    (fun n => if n = 0 then .failed true "429" else if n = 1 then .failed true "Rate limit"
              else .ok []) {} 2 []
    rfl (by decide)
    (by
      intro i hi
      interval_cases i
      · exact ⟨"429", rfl⟩
      · exact ⟨"Rate limit", rfl⟩)
    rfl
  refine ⟨by rw [h.1]; rfl, by rw [h.2.1], by rw [h.2.2.1]⟩

/-- C6: with retrying enabled, when the first `k` attempts fail as
rate-limit errors and attempt `k` fails with an error that is either not a
rate limit or exhausts the retries (`k = max_retries`), the fetch records
exactly one failure — `failed_accounts` grows by one and one error string
naming the account and cause is appended to `errors` — returns the empty
list, leaves `successful_accounts` untouched, and (being a value-returning
branch of the embedded except handler) propagates no exception. -/
theorem claim_C6_failure_recorded (cfg : FetchConfig) (oracle : TweetId → FetchOutcome)
    (username : String) (now : Int) (attemptO : Nat → AttemptOutcome) (st : Stats)
    (k : Nat) (b : Bool) (msg : String)
    (hflag : cfg.retry_on_rate_limit = true) (hk : k ≤ cfg.max_retries)
    (hrl : ∀ i, i < k → ∃ ms, attemptO i = .failed true ms)
    (hfail : attemptO k = .failed b msg)
    (hterm : b = false ∨ k = cfg.max_retries) :
    (getUserTweets cfg oracle username now attemptO st).1 = [] ∧
    (getUserTweets cfg oracle username now attemptO st).2.1.failed_accounts =
      st.failed_accounts + 1 ∧
    (getUserTweets cfg oracle username now attemptO st).2.1.errors =
      st.errors ++ ["@" ++ username ++ ": " ++ msg] ∧
    (getUserTweets cfg oracle username now attemptO st).2.1.successful_accounts =
      st.successful_accounts := by
  have h := getUserTweetsAux_failure cfg oracle username now attemptO b msg k 0 st []
    (by omega) (fun i _ h2 => hrl i (by omega)) (by simpa using hfail) hflag
    (by simpa using hterm)
  unfold getUserTweets
  rw [show cfg.max_retries + 1 = cfg.max_retries + 1 - 0 from rfl, h]
  exact ⟨rfl, rfl, rfl, rfl⟩

theorem claim_C6_witness :
    (getUserTweets {} (fun _ => .err) "bob" 0
      (fun n => if n = 0 then .failed true "429" else .failed false "boom") {}).1 = [] ∧
    (getUserTweets {} (fun _ => .err) "bob" 0
      (fun n => if n = 0 then .failed true "429" else .failed false "boom") {}).2.1.failed_accounts = 1 ∧
    (getUserTweets {} (fun _ => .err) "bob" 0
      (fun n => if n = 0 then .failed true "429" else .failed false "boom") {}).2.1.errors =
      ["@bob: boom"] ∧
    (getUserTweets {} (fun _ => .err) "bob" 0
      (fun n => if n = 0 then .failed true "429" else .failed false "boom") {}).2.1.successful_accounts = 0 := by
  have h := claim_C6_failure_recorded {} (fun _ => .err) "bob" 0
    (fun n => if n = 0 then .failed true "429" else .failed false "boom") {} 1 false "boom"
    rfl (by decide)
    (by intro i hi; interval_cases i; exact ⟨"429", rfl⟩)
    rfl (Or.inl rfl)
  exact ⟨h.1, h.2.1, by rw [h.2.2.1]; rfl, h.2.2.2⟩

/-! ## Claim C9: the orchestrator preserves submission order -/

theorem get?_set_self {α : Type} :
    ∀ (l : List α) (i : Nat) (a : α), i < l.length → (l.set i a).get? i = some a := by
  intro l
  induction l with
  | nil => intro i a h; simp at h
  | cons x rest ih =>
    intro i a h
    cases i with
    | zero => rfl
    | succ n => exact ih n a (by simpa using h)

theorem get?_set_ne {α : Type} :
    ∀ (l : List α) (i j : Nat) (a : α), i ≠ j → (l.set i a).get? j = l.get? j := by
  intro l
  induction l with
  | nil => intro i j a _; rfl
  | cons x rest ih =>
    intro i j a hij
    cases i with
    | zero =>
      cases j with
      | zero => exact absurd rfl hij
      | succ m => rfl
    | succ n =>
      cases j with
      | zero => rfl
      | succ m => exact ih n m a (fun h => hij (by rw [h]))

theorem applyWrites_step (f : Nat → List TweetData) (i : Nat) (rest : List Nat)
    (slots : List (Option (List TweetData))) :
    applyWrites f (i :: rest) slots = applyWrites f rest (slots.set i (some (f i))) := rfl

theorem applyWrites_length (f : Nat → List TweetData) :
    ∀ (order : List Nat) (slots : List (Option (List TweetData))),
      (applyWrites f order slots).length = slots.length := by
  intro order
  induction order with
  | nil => intro slots; rfl
  | cons i rest ih =>
    intro slots
    rw [applyWrites_step, ih, List.length_set]

theorem applyWrites_get_not_mem (f : Nat → List TweetData) :
    ∀ (order : List Nat) (slots : List (Option (List TweetData))) (i : Nat), i ∉ order →
      (applyWrites f order slots).get? i = slots.get? i := by
  intro order
  induction order with
  | nil => intro slots i _; rfl
  | cons j rest ih =>
    intro slots i hi
    have h1 : i ≠ j := fun h => hi (h ▸ List.mem_cons_self _ _)
    have h2 : i ∉ rest := fun h => hi (List.mem_cons_of_mem _ h)
    rw [applyWrites_step, ih _ i h2, get?_set_ne _ j i _ (fun h => h1 h.symm)]

theorem applyWrites_get_mem (f : Nat → List TweetData) :
    ∀ (order : List Nat) (slots : List (Option (List TweetData))) (i : Nat),
      i ∈ order → i < slots.length →
      (applyWrites f order slots).get? i = some (some (f i)) := by
  intro order
  induction order with
  | nil => intro slots i hi _; cases hi
  | cons j rest ih =>
    intro slots i hi hlt
    by_cases hm : i ∈ rest
    · rw [applyWrites_step]
      exact ih _ i hm (by rw [List.length_set]; exact hlt)
    · have hij : i = j := by
        rcases List.mem_cons.mp hi with h | h
        · exact h
        · exact absurd h hm
      subst hij
      rw [applyWrites_step, applyWrites_get_not_mem f rest _ i hm, get?_set_self _ i _ hlt]

theorem applyWrites_eq_map (f : Nat → List TweetData) (order : List Nat) (n : Nat)
    (hmem : ∀ i, i < n → i ∈ order) :
    applyWrites f order (List.replicate n none) =
      (List.range n).map (fun i => some (f i)) := by
  apply List.ext_get?
  intro i
  by_cases hi : i < n
  · rw [applyWrites_get_mem f order _ i (hmem i hi) (by rw [List.length_replicate]; exact hi)]
    rw [List.get?_map, List.get?_range hi]
    rfl
  · have h1 : (applyWrites f order (List.replicate n none)).get? i = none := by
      rw [List.get?_eq_none, applyWrites_length, List.length_replicate]
      omega
    have h2 : ((List.range n).map (fun i => some (f i))).get? i = none := by
      rw [List.get?_eq_none, List.length_map, List.length_range]
      omega
    rw [h1, h2]

theorem flattenPhase_foldl (L : List (List TweetData)) :
    ∀ acc : List TweetData,
      (L.map some).foldl (fun acc o =>
        match o with
        | some l => if l.isEmpty then acc else acc ++ l
        | none => acc) acc = acc ++ L.flatten := by
  induction L with
  | nil => intro acc; simp
  | cons l rest ih =>
    intro acc
    rw [List.map_cons, List.foldl_cons]
    by_cases hl : l.isEmpty
    · have hnil : l = [] := List.isEmpty_iff.mp hl
      subst hnil
      simp only [List.flatten_cons, List.nil_append]
      simpa using ih acc
    · have hb : l.isEmpty = false := by
        cases h : l.isEmpty
        · rfl
        · exact absurd h hl
      simp only [hb, Bool.false_eq_true, if_false]
      rw [ih (acc ++ l), List.flatten_cons, List.append_assoc]

theorem range_map_getD (g : String → List TweetData) (d : String) :
    ∀ l : List String,
      (List.range l.length).map (fun i => g (l.getD i d)) = l.map g := by
  intro l
  induction l with
  | nil => rfl
  | cons a rest ih =>
    rw [List.length_cons, List.range_succ_eq_map, List.map_cons, List.map_map]
    rw [show ((fun i => g ((a :: rest).getD i d)) ∘ Nat.succ)
        = (fun i => g (rest.getD i d)) from funext fun i => rfl]
    rw [ih]
    rfl

/-- C9: for every account list and every completion order of the per-task
slot writes that runs each submitted index once (any permutation of the
index range), the orchestrator returns the concatenation of each account
final list in the original submission order — the result is independent of
the order in which the concurrent tasks complete. -/
theorem claim_C9_order (fetchOf : String → List TweetData) (accounts : List String)
    (order : List Nat) (hperm : order.Perm (List.range accounts.length)) :
    fetchMultipleAccounts fetchOf accounts order = (accounts.map fetchOf).flatten := by
  unfold fetchMultipleAccounts
  have hmem : ∀ i, i < accounts.length → i ∈ order := fun i hi =>
    hperm.mem_iff.mpr (List.mem_range.mpr hi)
  rw [applyWrites_eq_map (fun i => fetchOf (accounts.getD i "")) order accounts.length hmem]
  have hm : (List.range accounts.length).map
      (fun i => some (fetchOf (accounts.getD i ""))) =
      ((List.range accounts.length).map (fun i => fetchOf (accounts.getD i ""))).map some := by
    rw [List.map_map]
    rfl
  rw [hm]
  unfold flattenPhase
  rw [flattenPhase_foldl, range_map_getD fetchOf "" accounts, List.nil_append]

theorem claim_C9_witness :
    fetchMultipleAccounts
      (fun s => if s = "y" then [] else
        [{ username := s, text := "t", created_at := "", likes := 0, retweets := 0,
           url := ⟨s, "1"⟩ }])
      ["x", "y", "z"] [2, 0, 1] =
    ((["x", "y", "z"] : List String).map
      (fun s => if s = "y" then [] else
        [{ username := s, text := "t", created_at := "", likes := 0, retweets := 0,
           url := ⟨s, "1"⟩ }])).flatten :=
  claim_C9_order
    (fun s => if s = "y" then [] else
      [{ username := s, text := "t", created_at := "", likes := 0, retweets := 0,
         url := ⟨s, "1"⟩ }])
    ["x", "y", "z"] [2, 0, 1] (by decide)
